import Mathlib

/-!
Verification development for the executive-report generation pipeline.

The freeform-response parser (`_parse_llm_response` in
`src/executive_generator.py`) is embedded as a step function over an explicit
parser state, folded over the list of lines of the response
(the Python code first does `response_content.split('\n')`; inputs here are
the resulting line lists, each line a `List Char`, mirroring Python strings).
Python exceptions (in particular the pydantic `ValidationError` raised by
`ExecutiveRecommendation(**d)` when a required field is absent) are modelled
by `Except Unit`.

The tabular analytics component (`src/data_processor.py`) is embedded over
`ℚ`-valued sales figures (the Python code uses IEEE doubles; the claims
settled against this model are chosen to be robust to that difference, and
pandas' `std` producing NaN for a single observation is modelled by
`Option`). The research-prompt renderer (`src/search_tool.py`,
`create_industry_research_prompt`) is embedded directly over `String`.
-/

/-- Whitespace characters stripped by Python's `str.strip()`. -/
def pyIsSpace (c : Char) : Bool :=
  c = ' ' || c = '\t' || c = '\n' || c = '\r' || c = '\x0b' || c = '\x0c'

/-- Python `str.strip()` on a line of characters. -/
def pyStrip (l : List Char) : List Char :=
  ((l.dropWhile pyIsSpace).reverse.dropWhile pyIsSpace).reverse

/-- Python `line.split(":", 1)[1]`: everything after the first colon
(callers in the source only use it on lines that contain a colon). -/
def afterFirstColon (l : List Char) : List Char :=
  (l.dropWhile (fun c => c != ':')).drop 1

/-- The five section-header strings of the freeform grammar. -/
def hdrSummaryStr : String := "EXECUTIVE SUMMARY:"

def hdrFindingsStr : String := "KEY FINDINGS:"

def hdrRecsStr : String := "STRATEGIC RECOMMENDATIONS:"

def hdrRiskStr : String := "RISK ASSESSMENT:"

def hdrStepsStr : String := "NEXT STEPS:"

def hdrSummary : List Char := hdrSummaryStr.data

def hdrFindings : List Char := hdrFindingsStr.data

def hdrRecs : List Char := hdrRecsStr.data

def hdrRisk : List Char := hdrRiskStr.data

def hdrSteps : List Char := hdrStepsStr.data

/-- Field-prefix strings of the recommendation sub-grammar. -/
def catStr : String := "Category:"

def prioStr : String := "Priority:"

def tlStr : String := "Timeline:"

def eiStr : String := "Expected Impact:"

def brStr : String := "[Recommendation"

def catP : List Char := catStr.data

def prioP : List Char := prioStr.data

def tlP : List Char := tlStr.data

def eiP : List Char := eiStr.data

def brP : List Char := brStr.data

def bulletP : List Char := ['•']

def closeBracketP : List Char := [']']

/-- The five parser states of the section state machine
(`current_section` in `_parse_llm_response`). -/
inductive SectionTag where
  | summary
  | findings
  | recommendations
  | risk
  | steps
deriving DecidableEq, BEq

/-- The `elif` chain of header tests in `_parse_llm_response`
(each test is Python `line.startswith(header)`). -/
def sectionOfHeader (line : List Char) : Option SectionTag :=
  if hdrSummary.isPrefixOf line then some .summary
  else if hdrFindings.isPrefixOf line then some .findings
  else if hdrRecs.isPrefixOf line then some .recommendations
  else if hdrRisk.isPrefixOf line then some .risk
  else if hdrSteps.isPrefixOf line then some .steps
  else none

/-- The pydantic model `ExecutiveRecommendation`
(`src/executive_generator.py`, lines 12-17): five required string fields. -/
structure ExecutiveRecommendation where
  recommendation : List Char
  category : List Char
  priority : List Char
  timeline : List Char
  expected_impact : List Char
deriving DecidableEq, BEq

/-- The `current_recommendation` Python dict of `_parse_llm_response`:
each key either present (`some`) or absent (`none`). -/
structure Draft where
  recommendation : Option (List Char)
  category : Option (List Char)
  priority : Option (List Char)
  timeline : Option (List Char)
  expected_impact : Option (List Char)
deriving DecidableEq, BEq

def emptyDraft : Draft :=
  { recommendation := none, category := none, priority := none
    timeline := none, expected_impact := none }

/-- Python truthiness of the `current_recommendation` dict: the dict is
non-empty iff some key has been set. `isEmpty` is true for the fresh dict. -/
def Draft.isEmpty (d : Draft) : Bool :=
  d.recommendation.isNone && d.category.isNone && d.priority.isNone &&
    d.timeline.isNone && d.expected_impact.isNone

/-- Embeds `_is_recommendation_complete`: the four fields
`recommendation`, `priority`, `timeline`, `expected_impact` are each present
and truthy after `strip()` (`category` is not checked). -/
def is_recommendation_complete (d : Draft) : Bool :=
  d.recommendation.any (fun v => pyStrip v ≠ []) &&
    d.priority.any (fun v => pyStrip v ≠ []) &&
    d.timeline.any (fun v => pyStrip v ≠ []) &&
    d.expected_impact.any (fun v => pyStrip v ≠ [])

/-- Embeds `ExecutiveRecommendation(**current_recommendation)`: pydantic raises a
`ValidationError` (modelled `.error ()`) when any of the five required model
fields is absent from the dict. -/
def mkRecommendation (d : Draft) : Except Unit ExecutiveRecommendation :=
  match d.recommendation, d.category, d.priority, d.timeline, d.expected_impact with
  | some r, some c, some p, some t, some e => .ok ⟨r, c, p, t, e⟩
  | _, _, _, _, _ => .error ()

/-- The flush idiom of `_parse_llm_response`:
`if current_recommendation and self._is_recommendation_complete(...):
append(ExecutiveRecommendation(**current_recommendation)); reset`.
Returns the updated output list and the draft left behind
(the fresh empty dict if a flush happened, the untouched draft otherwise). -/
def flushIfComplete (recs : List ExecutiveRecommendation) (d : Draft) :
    Except Unit (List ExecutiveRecommendation × Draft) :=
  if !d.isEmpty && is_recommendation_complete d then
    match mkRecommendation d with
    | .error e => .error e
    | .ok r => .ok (recs ++ [r], emptyDraft)
  else .ok (recs, d)

/-- Parser state of `_parse_llm_response`: the accumulating section contents,
the current section, and the draft recommendation. -/
structure PState where
  current_section : Option SectionTag
  executive_summary : List Char
  key_findings : List (List Char)
  strategic_recommendations : List ExecutiveRecommendation
  current_recommendation : Draft
  risk_assessment : List Char
  next_steps : List (List Char)
deriving DecidableEq, BEq

def initPState : PState :=
  { current_section := none, executive_summary := [], key_findings := []
    strategic_recommendations := [], current_recommendation := emptyDraft
    risk_assessment := [], next_steps := [] }

/-- Appending description text to the draft:
`current_recommendation['recommendation'] += " " + line` when the key exists,
else `current_recommendation['recommendation'] = line`. -/
def appendText (cur : Option (List Char)) (line : List Char) : List Char :=
  match cur with
  | some r => r ++ ' ' :: line
  | none => line

/-- One (already stripped, non-empty, non-header) line handled in the
`current_section == "recommendations"` branch of `_parse_llm_response`. -/
def recStep (s : PState) (line : List Char) : Except Unit PState :=
  if catP.isPrefixOf line then
    match flushIfComplete s.strategic_recommendations s.current_recommendation with
    | .error e => .error e
    | .ok (recs, d) =>
        .ok { s with strategic_recommendations := recs
                     current_recommendation :=
                       { d with category := some (pyStrip (afterFirstColon line)) } }
  else if prioP.isPrefixOf line then
    .ok { s with current_recommendation :=
                   { s.current_recommendation with
                     priority := some (pyStrip (afterFirstColon line)) } }
  else if tlP.isPrefixOf line then
    .ok { s with current_recommendation :=
                   { s.current_recommendation with
                     timeline := some (pyStrip (afterFirstColon line)) } }
  else if eiP.isPrefixOf line then
    .ok { s with current_recommendation :=
                   { s.current_recommendation with
                     expected_impact := some (pyStrip (afterFirstColon line)) } }
  else if brP.isPrefixOf line && closeBracketP.isSuffixOf line then
    match flushIfComplete s.strategic_recommendations s.current_recommendation with
    | .error e => .error e
    | .ok (recs, _) =>
        .ok { s with strategic_recommendations := recs
                     current_recommendation := emptyDraft }
  else
    .ok { s with current_recommendation :=
                   { s.current_recommendation with
                     recommendation :=
                       some (appendText s.current_recommendation.recommendation line) } }

/-- Dispatch of one already-stripped line: blank lines are skipped, header
(prefix) matches switch the section and are discarded, all other lines are
handled by the current section (none before the first header). -/
def dispatchLine (s : PState) (line : List Char) : Except Unit PState :=
  if line = [] then .ok s
  else match sectionOfHeader line with
    | some sec => .ok { s with current_section := some sec }
    | none =>
        match s.current_section with
        | none => .ok s
        | some .summary =>
            .ok { s with executive_summary := s.executive_summary ++ line ++ [' '] }
        | some .findings =>
            if bulletP.isPrefixOf line then
              .ok { s with key_findings := s.key_findings ++ [pyStrip (line.drop 1)] }
            else .ok s
        | some .recommendations => recStep s line
        | some .risk =>
            .ok { s with risk_assessment := s.risk_assessment ++ line ++ [' '] }
        | some .steps =>
            if bulletP.isPrefixOf line then
              .ok { s with next_steps := s.next_steps ++ [pyStrip (line.drop 1)] }
            else .ok s

/-- One iteration of the `for line in lines` loop: strip, then dispatch. -/
def parseStep (s : PState) (rawLine : List Char) : Except Unit PState :=
  dispatchLine s (pyStrip rawLine)

/-- The `for` loop of `_parse_llm_response` over the split lines. -/
def parseFold (s : PState) : List (List Char) → Except Unit PState
  | [] => .ok s
  | l :: ls =>
      match parseStep s l with
      | .error e => .error e
      | .ok s' => parseFold s' ls

/-- The result type `ExecutiveSummary` (pydantic model, lines 19-24). -/
structure ExecutiveSummaryR where
  executive_summary : List Char
  key_findings : List (List Char)
  strategic_recommendations : List ExecutiveRecommendation
  risk_assessment : List Char
  next_steps : List (List Char)
deriving DecidableEq, BEq

/-- After the loop: the trailing flush of the last draft, then construction of
the `ExecutiveSummary` with the two paragraphs stripped. -/
def finalizeParse (s : PState) : Except Unit ExecutiveSummaryR :=
  match flushIfComplete s.strategic_recommendations s.current_recommendation with
  | .error e => .error e
  | .ok (recs, _) =>
      .ok { executive_summary := pyStrip s.executive_summary
            key_findings := s.key_findings
            strategic_recommendations := recs
            risk_assessment := pyStrip s.risk_assessment
            next_steps := s.next_steps }

/-- Embeds `_parse_llm_response` on the line list produced by
`response_content.split('\n')`. -/
def parse_llm_response (lines : List (List Char)) : Except Unit ExecutiveSummaryR :=
  match parseFold initPState lines with
  | .error e => .error e
  | .ok s => finalizeParse s

deriving instance DecidableEq for Except

/-! ## Exact-header parser variant

`specExactHeaderResponse` formalizes the specification's reading of the
header transition rule: a (stripped) line switches the section iff it
*exactly equals* one of the five header strings. Everything else is as in
the implementation. The implementation itself (`sectionOfHeader`) uses
Python `startswith`, i.e. a prefix test. -/

/-- Header recognition following the spec's words: exact equality of the
stripped line with one of the five header strings. -/
def sectionOfHeaderExact (line : List Char) : Option SectionTag :=
  if line = hdrSummary then some .summary
  else if line = hdrFindings then some .findings
  else if line = hdrRecs then some .recommendations
  else if line = hdrRisk then some .risk
  else if line = hdrSteps then some .steps
  else none

def dispatchLineExact (s : PState) (line : List Char) : Except Unit PState :=
  if line = [] then .ok s
  else match sectionOfHeaderExact line with
    | some sec => .ok { s with current_section := some sec }
    | none =>
        match s.current_section with
        | none => .ok s
        | some .summary =>
            .ok { s with executive_summary := s.executive_summary ++ line ++ [' '] }
        | some .findings =>
            if bulletP.isPrefixOf line then
              .ok { s with key_findings := s.key_findings ++ [pyStrip (line.drop 1)] }
            else .ok s
        | some .recommendations => recStep s line
        | some .risk =>
            .ok { s with risk_assessment := s.risk_assessment ++ line ++ [' '] }
        | some .steps =>
            if bulletP.isPrefixOf line then
              .ok { s with next_steps := s.next_steps ++ [pyStrip (line.drop 1)] }
            else .ok s

def parseFoldExact (s : PState) : List (List Char) → Except Unit PState
  | [] => .ok s
  | l :: ls =>
      match dispatchLineExact s (pyStrip l) with
      | .error e => .error e
      | .ok s' => parseFoldExact s' ls

/-- The whole parser with the spec's exact-equality header rule. -/
def specExactHeaderResponse (lines : List (List Char)) : Except Unit ExecutiveSummaryR :=
  match parseFoldExact initPState lines with
  | .error e => .error e
  | .ok s => finalizeParse s

/-! ## Concrete inputs used by counterexamples and witnesses -/

def linesOf (l : List String) : List (List Char) := l.map (fun s => s.data)

/-- A recommendations section whose (only) entry has the four required
fields but no `Category:` line; at end of input the draft is complete, so
the parser builds `ExecutiveRecommendation(**draft)` — which raises. -/
def c1Lines : List (List Char) :=
  linesOf [hdrRecsStr, "Invest in channel partners", "Priority: High",
    "Timeline: Immediate", "Expected Impact: Revenue growth"]

/-- A complete category-less draft hit by a `Category:` flush boundary. -/
def c2Lines : List (List Char) :=
  linesOf [hdrRecsStr, "Launch a loyalty program", "Priority: High",
    "Timeline: Short-term", "Expected Impact: Retention lift",
    "Category: Marketing"]

/-- A complete category-less first entry hit by a bracketed-header flush
boundary before any `Category:` line for it was seen. -/
def c6Lines : List (List Char) :=
  linesOf [hdrRecsStr, "Expand into APAC", "Priority: High",
    "Timeline: Long-term", "Expected Impact: Market share growth",
    "[Recommendation 2]", "Strengthen the partner network",
    "Category: Operational", "Priority: Low", "Timeline: Short-term",
    "Expected Impact: Modest cost savings"]

/-- Input on which the prefix and exact-equality header rules diverge: the
third line starts with (but does not equal) a header string. -/
def c3Lines : List (List Char) :=
  linesOf ["EXECUTIVE SUMMARY:", "Intro", "RISK ASSESSMENT: High exposure",
    "More text"]

/-- A header line with trailing content after the header prefix. -/
def c3WitnessLine : List Char := ("RISK ASSESSMENT: trailing words").data

def c9Lines : List (List Char) :=
  linesOf ["EXECUTIVE SUMMARY:", "All metrics are healthy."]

def c9Parsed : ExecutiveSummaryR :=
  { executive_summary := ("All metrics are healthy.").data
    key_findings := [], strategic_recommendations := []
    risk_assessment := [], next_steps := [] }

def coNameDemo : String := "TestCo"

/-! ## Data Summary Service (`src/data_processor.py`)

Sales figures are modelled in `ℚ` (the source uses IEEE doubles).
One row of the normalized table: the source's column resolution
(lower-casing, sales-column detection, renaming) happens before the parts
modelled here and is not itself the subject of any claim. -/

structure SalesRow where
  product : String
  region : String
  sales : ℚ
deriving DecidableEq

/-- Embeds `df['sales'].sum()`. -/
def totalOf (t : List SalesRow) : ℚ := (t.map (fun r => r.sales)).sum

/-- Round-half-to-even to an integer, as numpy/pandas rounding does
(exact ties go to the even integer). -/
def roundHalfEven (q : ℚ) : ℤ :=
  if Int.fract q < 1/2 then Int.floor q
  else if 1/2 < Int.fract q then Int.floor q + 1
  else if Int.floor q % 2 = 0 then Int.floor q else Int.floor q + 1

/-- pandas `.round(2)`: round to 2 decimal places. -/
def round2 (q : ℚ) : ℚ := (roundHalfEven (q * 100) : ℚ) / 100

/-- Lexicographic comparison of char lists by code point, the order pandas
uses when sorting string group keys. -/
def lexLe : List Char → List Char → Bool
  | [], _ => true
  | _ :: _, [] => false
  | a :: as, b :: bs => if a = b then lexLe as bs else Nat.blt a.toNat b.toNat

def strLe (a b : String) : Bool := lexLe a.data b.data

def insertSorted (x : String) : List String → List String
  | [] => [x]
  | y :: ys => if strLe x y then x :: y :: ys else y :: insertSorted x ys

/-- Ascending sort of the group keys (pandas `groupby` sorts its keys). -/
def sortKeys (l : List String) : List String := l.foldr insertSorted []

/-- The distinct products of the table, sorted: the index of
`df.groupby('product')`. -/
def productKeys (t : List SalesRow) : List String :=
  sortKeys (t.map (fun r => r.product)).dedup

/-- The distinct regions of the table, sorted: the index of
`df.groupby('region')`. -/
def regionKeys (t : List SalesRow) : List String :=
  sortKeys (t.map (fun r => r.region)).dedup

/-- The sales values of one group-by key. -/
def groupSales (t : List SalesRow) (f : SalesRow → String) (k : String) : List ℚ :=
  (t.filter (fun r => f r == k)).map (fun r => r.sales)

/-- One row of `product_stats`/`region_stats` after
`.agg(['sum','mean','count','std']).round(2)` plus the `market_share` column.
`sales_volatility` models the pandas sample standard deviation column:
`none` models the NaN that `std` yields for a single observation; for two or
more observations the source stores `round2 (sqrt v)` where `v` is the sample
variance — that value is irrational in general and is carried here as
`some v`; no claim depends on the numeric value, only on NaN-ness, which the
`Option` preserves exactly. -/
structure GroupStats where
  total_sales : ℚ
  average_sales : ℚ
  transaction_count : ℕ
  sales_volatility : Option ℚ
  market_share_percent : ℚ
deriving DecidableEq

/-- Sample variance (pandas `std` squared, `ddof = 1`). -/
def sampleVariance (xs : List ℚ) : ℚ :=
  (xs.map (fun x => (x - xs.sum / (xs.length : ℚ)) ^ 2)).sum / ((xs.length : ℚ) - 1)

/-- Statistics of one group: `sum`, `mean`, `count`, `std` rounded to two
decimals, and `market_share = (rounded_sum / total_sales * 100).round(2)`
(the source computes the share from the already-rounded `sum` column). -/
def groupStats (xs : List ℚ) (total : ℚ) : GroupStats :=
  { total_sales := round2 xs.sum
    average_sales := round2 (xs.sum / (xs.length : ℚ))
    transaction_count := xs.length
    sales_volatility := if xs.length ≤ 1 then none else some (sampleVariance xs)
    market_share_percent := round2 (round2 xs.sum / total * 100) }

/-- Embeds `_create_product_summary`: the per-product stats dictionary, keyed in
group-by (sorted) order. -/
def create_product_summary (t : List SalesRow) : List (String × GroupStats) :=
  (productKeys t).map (fun k => (k, groupStats (groupSales t (fun r => r.product) k) (totalOf t)))

/-- Embeds `_create_region_summary`: the per-region stats dictionary. -/
def create_region_summary (t : List SalesRow) : List (String × GroupStats) :=
  (regionKeys t).map (fun k => (k, groupStats (groupSales t (fun r => r.region) k) (totalOf t)))

/-- The content of the human-readable insight strings built by
`_generate_key_insights` (the f-string formatting itself carries no further
information). -/
inductive Insight where
  | topProduct (name : String) (amount : ℚ)
  | topRegion (name : String) (amount : ℚ)
  | productCount (n : ℕ)
  | regionCount (n : ℕ)
  | concentrationRisk (name : String) (share : ℚ)
deriving DecidableEq

/-- Python `max(summary.keys(), key=lambda x: summary[x]['total_sales'])`
followed by the dict lookup of the winner: iteration keeps the first key
whose total strictly exceeds the best so far, so ties keep the earlier key.
The `[]` case is unreachable in the source (`max` of an empty dict raises,
and `process_csv_data` fails before that on an empty table). -/
def maxBySales (l : List (String × GroupStats)) : String × GroupStats :=
  match l with
  | [] => ("", ⟨0, 0, 0, none, 0⟩)
  | p :: rest =>
      rest.foldl (fun best q => if best.2.total_sales < q.2.total_sales then q else best) p

/-- Embeds `_generate_key_insights`: four fixed insights, plus the concentration-risk
insight exactly when the top product's (rounded) market share exceeds 50. -/
def generate_key_insights (ps rs : List (String × GroupStats)) : List Insight :=
  [Insight.topProduct (maxBySales ps).1 (maxBySales ps).2.total_sales,
   Insight.topRegion (maxBySales rs).1 (maxBySales rs).2.total_sales,
   Insight.productCount ps.length,
   Insight.regionCount rs.length] ++
  (if 50 < (maxBySales ps).2.market_share_percent then
    [Insight.concentrationRisk (maxBySales ps).1 (maxBySales ps).2.market_share_percent]
  else [])

/-- The `SalesData` pydantic model. -/
structure SalesDataR where
  product_summary : List (String × GroupStats)
  region_summary : List (String × GroupStats)
  total_sales : ℚ
  key_insights : List Insight
deriving DecidableEq

/-- Embeds `process_csv_data` on an already-normalized table. On an empty table the
source raises (Python `max()` of the empty key set inside
`_generate_key_insights`, re-wrapped by the outer `except`), modelled by
`.error ()`. -/
def process_csv_data (t : List SalesRow) : Except Unit SalesDataR :=
  if t = [] then .error ()
  else
    .ok { product_summary := create_product_summary t
          region_summary := create_region_summary t
          total_sales := totalOf t
          key_insights := generate_key_insights (create_product_summary t) (create_region_summary t) }

/-! ## Research Service rendering (`src/search_tool.py`) -/

/-- The `SearchResult` pydantic model. -/
structure SearchResult where
  title : String
  url : String
  content : String
  published_date : String
deriving DecidableEq

/-- The `IndustryResearch` pydantic model: the research bundle. -/
structure IndustryResearch where
  company_trends : List SearchResult
  product_trends : List SearchResult
  industry_news : List SearchResult
  competitive_landscape : List SearchResult
deriving DecidableEq

def emptyResearch : IndustryResearch :=
  { company_trends := [], product_trends := [], industry_news := []
    competitive_landscape := [] }

/-- One research item as rendered by `create_industry_research_prompt`:
`f"{i}. {title}\n   {content[:maxChars]}...\n   Source: {url}\n\n"`. -/
def renderResearchItem (maxChars : Nat) (p : Nat × SearchResult) : String :=
  toString p.1 ++ ". " ++ p.2.title ++ "\n   " ++ (p.2.content.take maxChars) ++
    "...\n   Source: " ++ p.2.url ++ "\n\n"

/-- The `for i, x in enumerate(results[:keep], 1)` rendering loop. -/
def renderResearchList (results : List SearchResult) (keep maxChars : Nat) : String :=
  String.join (((results.take keep).enumFrom 1).map (renderResearchItem maxChars))

/-- Embeds `create_industry_research_prompt`: the placeholder when the bundle is
`None`, otherwise the four headed item lists (3/4/3/3 items kept, contents
truncated to 300/250/250/250 characters). -/
def create_industry_research_prompt (research : Option IndustryResearch)
    (company_name : String) : String :=
  match research with
  | none =>
      "\nIndustry Research Summary for " ++ company_name ++
        ":\n\nNo industry research data available. Analysis will be based on sales data only.\n"
  | some r =>
      "\nIndustry Research Summary for " ++ company_name ++
          ":\n\nCOMPANY-SPECIFIC TRENDS:\n" ++
        renderResearchList r.company_trends 3 300 ++
        "PRODUCT MARKET TRENDS:\n" ++
        renderResearchList r.product_trends 4 250 ++
        "INDUSTRY NEWS & ANALYSIS:\n" ++
        renderResearchList r.industry_news 3 250 ++
        "COMPETITIVE LANDSCAPE:\n" ++
        renderResearchList r.competitive_landscape 3 250

/-! ## Report generation (`generate_executive_report`)

The LLM call itself is an external effect; it is modelled by its outcome, an
`Except` of the response's line list. The quality-scoring step (judge
construction plus `hallucination_metric.score(...)`, the inner `try` block)
is likewise modelled by its outcome, a function from the parsed summary to
`Except String ℚ`. -/

/-- Embeds `generate_executive_report` after prompt construction: invoke the LLM,
parse the response, then best-effort scoring. A scoring failure is caught by
the inner `except` (the score stays `None`); an LLM failure or a parser
exception propagates to the outer `except` and becomes a raised
`Exception`, modelled by `.error ()`. -/
def generate_executive_report (llmResponse : Except Unit (List (List Char)))
    (scoreFn : ExecutiveSummaryR → Except Unit ℚ) :
    Except Unit (ExecutiveSummaryR × Option ℚ) :=
  match llmResponse with
  | .error _ => .error ()
  | .ok content =>
      match parse_llm_response content with
      | .error _ => .error ()
      | .ok parsed =>
          match scoreFn parsed with
          | .error _ => .ok (parsed, none)
          | .ok v => .ok (parsed, some v)

/-- A table whose product group `A` and region group `A` each hold exactly
one row. -/
def c10Table : List SalesRow := [⟨"A", "A", 5⟩, ⟨"B", "B", 3⟩]

/-- The end-to-end scenario table of the spec's testable properties. -/
def c7Table : List SalesRow :=
  [⟨"iPhone", "NA", 1500000⟩, ⟨"MacBook", "EU", 800000⟩, ⟨"iPad", "Asia", 600000⟩,
   ⟨"iPhone", "EU", 1200000⟩, ⟨"MacBook", "NA", 900000⟩]

/-- Three products of one row each with sales 0.004: each rounded group sum
is 0.00 while the grand total is 0.012, which exceeds the claimed 0.01
tolerance (the same failure occurs, far from any binary-float tie, in the
source's double arithmetic). -/
def c8Table : List SalesRow := [⟨"A", "R", 1/250⟩, ⟨"B", "R", 1/250⟩, ⟨"C", "R", 1/250⟩]

/-- One-row table with non-zero total, for the amended-bound witness. -/
def w8Table : List SalesRow := [⟨"A", "R", 1⟩]

/-- Sum of the per-product `total_sales` column. -/
def productTotalSum (t : List SalesRow) : ℚ :=
  ((create_product_summary t).map (fun p => p.2.total_sales)).sum

/-- Sum of the per-region `total_sales` column. -/
def regionTotalSum (t : List SalesRow) : ℚ :=
  ((create_region_summary t).map (fun p => p.2.total_sales)).sum

/-- Sum of the per-product `market_share_percent` column. -/
def productShareSum (t : List SalesRow) : ℚ :=
  ((create_product_summary t).map (fun p => p.2.market_share_percent)).sum

/-- Sum of the per-region `market_share_percent` column. -/
def regionShareSum (t : List SalesRow) : ℚ :=
  ((create_region_summary t).map (fun p => p.2.market_share_percent)).sum

/-! ## Freeform grammar renderer (for the round-trip claim)

A grammar-conformant response block is modelled by `SpecBlock`, rendered to
the line list the parser consumes by `renderBlock`. The well-formedness
conditions (`BlockWF`) spell out what "well-formed" means in the grammar of
the spec: section contents are non-blank trimmed lines that do not collide
with a header prefix, recommendation entries have a bracketed header,
at least one description line (not colliding with the four field prefixes or
the bracket pattern) and non-empty trimmed field values, and findings/steps
hold bulleted entries (possibly interspersed with non-bulleted lines, which
the parser must drop). -/

/-- True when the first character, if any, is not Python whitespace. -/
def noLeadSpace : List Char → Bool
  | [] => true
  | c :: _ => !pyIsSpace c

/-- A string that `strip()` leaves unchanged: no leading or trailing
whitespace. -/
def NiceText (l : List Char) : Prop :=
  noLeadSpace l = true ∧ noLeadSpace l.reverse = true

/-- One source-level recommendation entry of the grammar: the text inside
the bracketed header after `[Recommendation`, the description line(s) and
the four field values. -/
structure SpecRecommendation where
  label : List Char
  description : List (List Char)
  category : List Char
  priority : List Char
  timeline : List Char
  expected_impact : List Char

/-- One line of a findings/steps section: either a bulleted entry or a
plain line (which the parser drops). -/
inductive BulletLine where
  | bullet (text : List Char)
  | plain (line : List Char)

def renderEntry : BulletLine → List Char
  | .bullet t => '•' :: ' ' :: t
  | .plain l => l

/-- The lines of one recommendation entry. -/
def renderRec (r : SpecRecommendation) : List (List Char) :=
  (brP ++ r.label ++ [']']) :: r.description ++
    [catP ++ ' ' :: r.category, prioP ++ ' ' :: r.priority,
     tlP ++ ' ' :: r.timeline, eiP ++ ' ' :: r.expected_impact]

/-- A grammar-conformant freeform response. -/
structure SpecBlock where
  summaryLines : List (List Char)
  findings : List BulletLine
  recs : List SpecRecommendation
  riskLines : List (List Char)
  steps : List BulletLine

/-- The response's line list: the five headed sections in grammar order. -/
def renderBlock (b : SpecBlock) : List (List Char) :=
  hdrSummary :: b.summaryLines ++
    hdrFindings :: b.findings.map renderEntry ++
    hdrRecs :: (b.recs.map renderRec).flatten ++
    hdrRisk :: b.riskLines ++
    hdrSteps :: b.steps.map renderEntry

/-- A paragraph or junk line: non-blank, trimmed, no header-prefix
collision. -/
def PlainLineWF (l : List Char) : Prop :=
  NiceText l ∧ l ≠ [] ∧ sectionOfHeader l = none

/-- A non-bulleted line inside findings/steps (dropped by the parser). -/
def JunkLineWF (l : List Char) : Prop :=
  PlainLineWF l ∧ bulletP.isPrefixOf l = false

def EntryWF : BulletLine → Prop
  | .bullet t => NiceText t
  | .plain l => JunkLineWF l

/-- A description line: additionally collides with none of the field
prefixes nor the bracket pattern. -/
def DescLineWF (l : List Char) : Prop :=
  PlainLineWF l ∧ catP.isPrefixOf l = false ∧ prioP.isPrefixOf l = false ∧
    tlP.isPrefixOf l = false ∧ eiP.isPrefixOf l = false ∧
    (brP.isPrefixOf l && closeBracketP.isSuffixOf l) = false

/-- A field value: non-empty and trimmed. -/
def FieldWF (v : List Char) : Prop := NiceText v ∧ v ≠ []

def RecWF (r : SpecRecommendation) : Prop :=
  r.description ≠ [] ∧ (∀ l ∈ r.description, DescLineWF l) ∧
    FieldWF r.category ∧ FieldWF r.priority ∧ FieldWF r.timeline ∧
    FieldWF r.expected_impact

def BlockWF (b : SpecBlock) : Prop :=
  (∀ l ∈ b.summaryLines, PlainLineWF l) ∧ (∀ e ∈ b.findings, EntryWF e) ∧
    (∀ r ∈ b.recs, RecWF r) ∧ (∀ l ∈ b.riskLines, PlainLineWF l) ∧
    (∀ e ∈ b.steps, EntryWF e)

/-- Space-joining of lines, as the claim describes multi-line paragraphs and
descriptions. -/
def spaceJoin : List (List Char) → List Char
  | [] => []
  | [l] => l
  | l :: ls => l ++ ' ' :: spaceJoin ls

/-- The summary/risk accumulator contents: every line is appended with a
trailing blank. -/
def joinSp : List (List Char) → List Char
  | [] => []
  | l :: ls => l ++ [' '] ++ joinSp ls

/-- The bulleted payloads of a findings/steps section, in order. -/
def bulletTexts : List BulletLine → List (List Char)
  | [] => []
  | .bullet t :: es => t :: bulletTexts es
  | .plain _ :: es => bulletTexts es

/-- The record the parser is expected to recover for one entry. -/
def specToRec (r : SpecRecommendation) : ExecutiveRecommendation :=
  { recommendation := spaceJoin r.description, category := r.category
    priority := r.priority, timeline := r.timeline
    expected_impact := r.expected_impact }

/-- The draft the parser holds after scanning one full entry. -/
def fullDraft (r : SpecRecommendation) : Draft :=
  { recommendation := some (spaceJoin r.description), category := some r.category
    priority := some r.priority, timeline := some r.timeline
    expected_impact := some r.expected_impact }

/-- What a flush boundary appends for a given draft (empty when the draft is
empty or incomplete). -/
def draftFlushList (d : Draft) : List ExecutiveRecommendation :=
  if !d.isEmpty && is_recommendation_complete d then
    match mkRecommendation d with
    | .ok r => [r]
    | .error _ => []
  else []

/-- Description-text accumulation over the lines of an entry. -/
def textAppend (cur : Option (List Char)) : List (List Char) → Option (List Char)
  | [] => cur
  | l :: ls => textAppend (some (appendText cur l)) ls

attribute [reducible] NiceText PlainLineWF JunkLineWF EntryWF DescLineWF FieldWF RecWF BlockWF

instance : (e : BulletLine) → Decidable (EntryWF e)
  | .bullet t => inferInstanceAs (Decidable (NiceText t))
  | .plain l => inferInstanceAs (Decidable (JunkLineWF l))

/-- A concrete grammar-conformant block with two recommendation entries, a
multi-line description, and a junk line inside the findings section. -/
def c5Block : SpecBlock :=
  { summaryLines := linesOf ["Revenue grew strongly this quarter.", "Margins held steady."]
    findings := [BulletLine.bullet ("Growth is broad-based.").data,
                 BulletLine.plain ("note: internal only").data,
                 BulletLine.bullet ("EU demand is rising.").data]
    recs := [{ label := (" 1").data
               description := linesOf ["Double down on the enterprise segment."]
               category := ("Strategic").data
               priority := ("High").data
               timeline := ("Short-term").data
               expected_impact := ("Revenue growth").data },
             { label := (" 2").data
               description := linesOf ["Invest in churn reduction.", "Focus on onboarding."]
               category := ("Operational").data
               priority := ("Medium").data
               timeline := ("Long-term").data
               expected_impact := ("Lower churn").data }]
    riskLines := linesOf ["Concentration in one product is a risk."]
    steps := [BulletLine.bullet ("Review pricing.").data] }

/-! ## Theorems -/

/-- C1: the claim says the freeform parser never raises; the source violates
it. On `c1Lines` the single draft ends complete (its four required fields
non-empty) but has no category, so the trailing
`ExecutiveRecommendation(**current_recommendation)` raises a pydantic
`ValidationError` (`category` is a required model field that
`_is_recommendation_complete` does not check). -/
theorem c1_parser_raises_on_category_less_draft :
    parse_llm_response c1Lines = .error () := by decide

/-- C2: the claim says a draft with the four required fields but no category
is still accepted into the parsed report; the source violates it. On
`c2Lines` the `Category:` flush boundary finds the draft complete and tries
to construct the pydantic record, which raises because `category` is absent
from the dict. -/
theorem c2_category_flush_raises_without_category :
    parse_llm_response c2Lines = .error () := by decide

/-- C6: the claim says a `[Recommendation ...]` line appends the current
draft iff complete; the source violates it for a complete draft without a
category. On `c6Lines` the first entry is complete (no `Category:` line seen
yet) when the `[Recommendation 2]` boundary is reached, and the attempted
append raises instead of appending. -/
theorem c6_bracket_flush_raises_without_category :
    parse_llm_response c6Lines = .error () := by decide

/-- C3 counterexample: the parser does not implement the exact-equality
header rule the claim states. On `c3Lines` the line
`RISK ASSESSMENT: High exposure` is not exactly a header, yet the
(prefix-matching) implementation switches to the risk section and discards
it, while the exact-equality reading treats it as summary content. -/
theorem c3_counterexample_exact_header_rule :
    parse_llm_response c3Lines ≠ specExactHeaderResponse c3Lines := by decide

lemma recStep_section_eq (s : PState) (line : List Char) (s' : PState)
    (h : recStep s line = .ok s') : s'.current_section = s.current_section := by
  unfold recStep at h
  split at h
  · split at h
    · exact absurd h (by simp)
    · simp only [Except.ok.injEq] at h
      subst h
      rfl
  · split at h
    · simp only [Except.ok.injEq] at h
      subst h
      rfl
    · split at h
      · simp only [Except.ok.injEq] at h
        subst h
        rfl
      · split at h
        · simp only [Except.ok.injEq] at h
          subst h
          rfl
        · split at h
          · split at h
            · exact absurd h (by simp)
            · simp only [Except.ok.injEq] at h
              subst h
              rfl
          · simp only [Except.ok.injEq] at h
            subst h
            rfl

lemma dispatchLine_section_eq (s : PState) (line : List Char) (s' : PState)
    (hh : sectionOfHeader line = none) (h : dispatchLine s line = .ok s') :
    s'.current_section = s.current_section := by
  unfold dispatchLine at h
  split at h
  · simp only [Except.ok.injEq] at h
    subst h
    rfl
  · split at h
    · rename_i sec heq
      rw [hh] at heq
      cases heq
    · split at h
      · simp only [Except.ok.injEq] at h
        subst h
        rfl
      · simp only [Except.ok.injEq] at h
        subst h
        rfl
      · split at h <;> (simp only [Except.ok.injEq] at h; subst h; rfl)
      · exact recStep_section_eq s line s' h
      · simp only [Except.ok.injEq] at h
        subst h
        rfl
      · split at h <;> (simp only [Except.ok.injEq] at h; subst h; rfl)

/-- C3 amended: a stripped line switches the current section iff it *starts
with* one of the five header strings (first match of the source's `elif`
chain); such a line is discarded — the state is unchanged except for the
section — and a non-header line never changes the section. -/
theorem c3_header_switch_is_prefix_match (s : PState) (l : List Char) :
    (∀ sec, sectionOfHeader (pyStrip l) = some sec →
      parseStep s l = .ok { s with current_section := some sec }) ∧
    (sectionOfHeader (pyStrip l) = none →
      ∀ s', parseStep s l = .ok s' → s'.current_section = s.current_section) := by
  constructor
  · intro sec hsec
    have hne : pyStrip l ≠ [] := by
      intro hnil
      rw [hnil] at hsec
      have hz : sectionOfHeader [] = none := by decide
      rw [hz] at hsec
      cases hsec
    simp [parseStep, dispatchLine, hne, hsec]
  · intro hnone s1 h1
    exact dispatchLine_section_eq s (pyStrip l) s1 hnone h1

/-- C3 amended, witness: a line starting with (but not equal to) the risk
header switches the parser to the risk section and is discarded. -/
theorem c3_header_switch_is_prefix_match_witness :
    sectionOfHeader (pyStrip c3WitnessLine) = some SectionTag.risk ∧
    parseStep initPState c3WitnessLine =
      .ok { initPState with current_section := some SectionTag.risk } :=
  ⟨by decide,
   (c3_header_switch_is_prefix_match initPState c3WitnessLine).1 SectionTag.risk (by decide)⟩

/-- C9: a failing quality-scoring step is caught inside report generation:
when the LLM call succeeds and the response parses, a scoring failure still
yields the parsed summary with score `none`, not a raised exception. -/
theorem c9_scoring_failure_never_propagates (content : List (List Char))
    (parsed : ExecutiveSummaryR) (scoreFn : ExecutiveSummaryR → Except Unit ℚ)
    (hp : parse_llm_response content = .ok parsed)
    (hf : scoreFn parsed = .error ()) :
    generate_executive_report (.ok content) scoreFn = .ok (parsed, none) := by
  simp [generate_executive_report, hp, hf]

/-- C9 witness: a concrete successful parse with an always-failing scorer
still returns the report with score `none`. -/
theorem c9_scoring_failure_never_propagates_witness :
    parse_llm_response c9Lines = .ok c9Parsed ∧
    generate_executive_report (.ok c9Lines) (fun _ => .error ()) = .ok (c9Parsed, none) :=
  ⟨by decide,
   c9_scoring_failure_never_propagates c9Lines c9Parsed (fun _ => .error ()) (by decide) rfl⟩

/-- C4 counterexample: a research bundle whose four lists are all empty does
*not* render to the `No industry research data available...` placeholder
(which is produced only for an absent bundle). -/
theorem c4_counterexample_empty_bundle_not_placeholder :
    create_industry_research_prompt (some emptyResearch) coNameDemo ≠
      create_industry_research_prompt none coNameDemo := by decide

/-- C4 amended: the placeholder text appears exactly when the bundle is
absent (`None`); a bundle with all four lists empty renders the four section
headers with no items (and rendering, being total, never blocks report
generation). -/
theorem c4_amended_placeholder_only_when_absent :
    create_industry_research_prompt none coNameDemo =
      "\nIndustry Research Summary for TestCo:\n\nNo industry research data available. Analysis will be based on sales data only.\n" ∧
    create_industry_research_prompt (some emptyResearch) coNameDemo =
      "\nIndustry Research Summary for TestCo:\n\nCOMPANY-SPECIFIC TRENDS:\nPRODUCT MARKET TRENDS:\nINDUSTRY NEWS & ANALYSIS:\nCOMPETITIVE LANDSCAPE:\n" :=
  ⟨by decide, by decide⟩


lemma perm_insertSorted (x : String) (l : List String) :
    List.Perm (insertSorted x l) (x :: l) := by
  induction l with
  | nil => exact List.Perm.refl _
  | cons y ys ih =>
      unfold insertSorted
      split
      · exact List.Perm.refl _
      · exact List.Perm.trans (List.Perm.cons y ih) (List.Perm.swap x y ys)

lemma perm_sortKeys (l : List String) : List.Perm (sortKeys l) l := by
  induction l with
  | nil => exact List.Perm.refl _
  | cons x xs ih =>
      exact List.Perm.trans (perm_insertSorted x (sortKeys xs)) (List.Perm.cons x ih)

lemma mem_sortKeys {k : String} {l : List String} (h : k ∈ l) : k ∈ sortKeys l :=
  (perm_sortKeys l).mem_iff.mpr h

lemma nodup_sortKeys {l : List String} (h : l.Nodup) : (sortKeys l).Nodup :=
  (perm_sortKeys l).nodup_iff.mpr h

lemma lookup_map_eq {β : Type} (ks : List String) (f : String → β) (k : String)
    (hk : k ∈ ks) : (ks.map (fun a => (a, f a))).lookup k = some (f k) := by
  induction ks with
  | nil => cases hk
  | cons a rest ih =>
      by_cases hka : k = a
      · subst hka
        simp [List.lookup]
      · have hb : (k == a) = false := by simp [hka]
        have hk' : k ∈ rest := by
          cases List.mem_cons.mp hk with
          | inl h => exact absurd h hka
          | inr h => exact h
        simp [List.lookup, hb, ih hk']

lemma mem_productKeys {t : List SalesRow} {r : SalesRow} (h : r ∈ t) :
    r.product ∈ productKeys t :=
  mem_sortKeys (List.mem_dedup.mpr (List.mem_map_of_mem _ h))

lemma mem_regionKeys {t : List SalesRow} {r : SalesRow} (h : r ∈ t) :
    r.region ∈ regionKeys t :=
  mem_sortKeys (List.mem_dedup.mpr (List.mem_map_of_mem _ h))

/-- C10: a product or region group with exactly one row still lets
`process_csv_data` succeed, and that group's `sales_volatility` is NaN
(`none` in this model, pandas' sample standard deviation of one
observation), not 0. -/
theorem c10_single_row_group_volatility_is_nan (t : List SalesRow) (k : String) :
    ((groupSales t (fun r => r.product) k).length = 1 →
      ∃ d s, process_csv_data t = .ok d ∧ d.product_summary.lookup k = some s ∧
        s.sales_volatility = none) ∧
    ((groupSales t (fun r => r.region) k).length = 1 →
      ∃ d s, process_csv_data t = .ok d ∧ d.region_summary.lookup k = some s ∧
        s.sales_volatility = none) := by
  constructor
  · intro h1
    have hex : ∃ r, r ∈ t.filter (fun r => r.product == k) := by
      apply List.exists_mem_of_length_pos
      have : (t.filter (fun r => r.product == k)).length = 1 := by
        simpa [groupSales] using h1
      omega
    obtain ⟨r, hr⟩ := hex
    have hrt : r ∈ t := (List.mem_filter.mp hr).1
    have hrk : r.product = k := by
      have := (List.mem_filter.mp hr).2
      simpa using this
    have hne : t ≠ [] := by
      intro h0
      rw [h0] at hrt
      cases hrt
    have hkmem : k ∈ productKeys t := hrk ▸ mem_productKeys hrt
    refine ⟨_, groupStats (groupSales t (fun r => r.product) k) (totalOf t),
      by rw [process_csv_data, if_neg hne], ?_, ?_⟩
    · exact lookup_map_eq (productKeys t)
        (fun a => groupStats (groupSales t (fun r => r.product) a) (totalOf t)) k hkmem
    · simp [groupStats, h1]
  · intro h1
    have hex : ∃ r, r ∈ t.filter (fun r => r.region == k) := by
      apply List.exists_mem_of_length_pos
      have : (t.filter (fun r => r.region == k)).length = 1 := by
        simpa [groupSales] using h1
      omega
    obtain ⟨r, hr⟩ := hex
    have hrt : r ∈ t := (List.mem_filter.mp hr).1
    have hrk : r.region = k := by
      have := (List.mem_filter.mp hr).2
      simpa using this
    have hne : t ≠ [] := by
      intro h0
      rw [h0] at hrt
      cases hrt
    have hkmem : k ∈ regionKeys t := hrk ▸ mem_regionKeys hrt
    refine ⟨_, groupStats (groupSales t (fun r => r.region) k) (totalOf t),
      by rw [process_csv_data, if_neg hne], ?_, ?_⟩
    · exact lookup_map_eq (regionKeys t)
        (fun a => groupStats (groupSales t (fun r => r.region) a) (totalOf t)) k hkmem
    · simp [groupStats, h1]

/-- C10 witness: in `c10Table` both the product group and the region group
named `A` have one row; processing succeeds and their volatility is NaN. -/
theorem c10_single_row_group_volatility_is_nan_witness :
    (groupSales c10Table (fun r => r.product) "A").length = 1 ∧
    (groupSales c10Table (fun r => r.region) "A").length = 1 ∧
    (∃ d s, process_csv_data c10Table = .ok d ∧ d.product_summary.lookup "A" = some s ∧
      s.sales_volatility = none) ∧
    (∃ d s, process_csv_data c10Table = .ok d ∧ d.region_summary.lookup "A" = some s ∧
      s.sales_volatility = none) :=
  ⟨by decide, by decide,
   (c10_single_row_group_volatility_is_nan c10Table "A").1 (by decide),
   (c10_single_row_group_volatility_is_nan c10Table "A").2 (by decide)⟩

/-- C7: for every non-empty table the insight list is the four fixed items
(top product with its rounded dollar total, top region, product count,
region count, in that order) followed by the concentration-risk item exactly
when the top product's stored market share exceeds 50; in particular it has
at least 4 items and has 5 iff that share exceeds 50. -/
theorem c7_insights_shape (t : List SalesRow) (h : t ≠ []) :
    ∃ d, process_csv_data t = .ok d ∧
      d.key_insights =
        [Insight.topProduct (maxBySales d.product_summary).1
            (maxBySales d.product_summary).2.total_sales,
         Insight.topRegion (maxBySales d.region_summary).1
            (maxBySales d.region_summary).2.total_sales,
         Insight.productCount d.product_summary.length,
         Insight.regionCount d.region_summary.length] ++
        (if 50 < (maxBySales d.product_summary).2.market_share_percent then
          [Insight.concentrationRisk (maxBySales d.product_summary).1
             (maxBySales d.product_summary).2.market_share_percent]
        else []) ∧
      4 ≤ d.key_insights.length ∧
      (d.key_insights.length = 5 ↔
        50 < (maxBySales d.product_summary).2.market_share_percent) := by
  refine ⟨_, by rw [process_csv_data, if_neg h], ?_, ?_, ?_⟩
  · rfl
  · by_cases h5 : 50 < (maxBySales (create_product_summary t)).2.market_share_percent <;>
      simp [generate_key_insights, h5]
  · by_cases h5 : 50 < (maxBySales (create_product_summary t)).2.market_share_percent <;>
      simp [generate_key_insights, h5]

/-- C7 witness: the claim instantiated at the spec's end-to-end scenario
table. -/
theorem c7_insights_shape_witness :
    c7Table ≠ [] ∧
    ∃ d, process_csv_data c7Table = .ok d ∧
      d.key_insights =
        [Insight.topProduct (maxBySales d.product_summary).1
            (maxBySales d.product_summary).2.total_sales,
         Insight.topRegion (maxBySales d.region_summary).1
            (maxBySales d.region_summary).2.total_sales,
         Insight.productCount d.product_summary.length,
         Insight.regionCount d.region_summary.length] ++
        (if 50 < (maxBySales d.product_summary).2.market_share_percent then
          [Insight.concentrationRisk (maxBySales d.product_summary).1
             (maxBySales d.product_summary).2.market_share_percent]
        else []) ∧
      4 ≤ d.key_insights.length ∧
      (d.key_insights.length = 5 ↔
        50 < (maxBySales d.product_summary).2.market_share_percent) :=
  ⟨by decide, c7_insights_shape c7Table (by decide)⟩

lemma round2_inv250 : round2 (List.sum [(1:ℚ)/250]) = 0 := by
  have h : List.sum [(1:ℚ)/250] = 1/250 := by simp
  rw [h]
  unfold round2 roundHalfEven
  norm_num [Int.fract]

lemma c8_ev : productTotalSum c8Table =
    round2 (List.sum [(1:ℚ)/250]) + (round2 (List.sum [(1:ℚ)/250]) +
      (round2 (List.sum [(1:ℚ)/250]) + 0)) := rfl

lemma c8_tot : totalOf c8Table = 3/250 := by
  simp [totalOf, c8Table]
  norm_num

/-- C8 counterexample: on `c8Table` the per-product rounded totals sum to 0
while `totalSales` is 0.012, violating the claimed 0.01 absolute tolerance. -/
theorem c8_counterexample_tolerance_exceeded : ¬ (|productTotalSum c8Table - totalOf c8Table| ≤ 1/100) := by
  rw [c8_ev, round2_inv250, c8_tot]
  have habs : |(3:ℚ)/250| = 3/250 := abs_of_pos (by norm_num)
  norm_num [habs]

lemma abs_roundHalfEven_sub_le (q : ℚ) : |(roundHalfEven q : ℚ) - q| ≤ 1/2 := by
  have h0 : (0:ℚ) ≤ Int.fract q := Int.fract_nonneg q
  have h1 : Int.fract q < 1 := Int.fract_lt_one q
  have hfr : (Int.floor q : ℚ) = q - Int.fract q := by
    rw [Int.fract]
    ring
  unfold roundHalfEven
  split_ifs with hlt hgt heven
  · rw [abs_le]
    constructor <;> [skip; skip] <;> rw [hfr] <;> linarith
  · rw [abs_le]
    push_cast
    constructor <;> rw [hfr] <;> linarith
  · have heq : Int.fract q = 1/2 := by linarith
    rw [abs_le]
    constructor <;> rw [hfr, heq] <;> linarith
  · have heq : Int.fract q = 1/2 := by linarith
    rw [abs_le]
    push_cast
    constructor <;> rw [hfr, heq] <;> linarith

lemma abs_round2_sub_le (q : ℚ) : |round2 q - q| ≤ 1/200 := by
  have h := abs_roundHalfEven_sub_le (q * 100)
  rw [round2]
  have he : (roundHalfEven (q * 100) : ℚ) / 100 - q =
      ((roundHalfEven (q * 100) : ℚ) - q * 100) / 100 := by ring
  rw [he, abs_div, abs_of_pos (show (0:ℚ) < 100 by norm_num)]
  linarith

lemma sum_map_filter_split {α : Type} (p : α → Bool) (g : α → ℚ) (t : List α) :
    ((t.filter p).map g).sum + ((t.filter (fun a => !p a)).map g).sum = (t.map g).sum := by
  induction t with
  | nil => simp
  | cons a rest ih =>
      by_cases hp : p a
      · simp only [List.filter_cons, hp, Bool.not_true, if_true, if_false, List.map_cons,
          List.sum_cons, ite_true, ite_false, Bool.false_eq_true, Bool.true_eq_false]
        linarith [ih]
      · have hp' : p a = false := by simpa using hp
        simp only [List.filter_cons, hp', Bool.not_false, if_true, if_false, List.map_cons,
          List.sum_cons, ite_true, ite_false, Bool.false_eq_true, Bool.true_eq_false]
        linarith [ih]

lemma filter_subset_comm {α : Type} (p q : α → Bool) (t : List α)
    (h : ∀ a, q a = true → p a = true) : (t.filter p).filter q = t.filter q := by
  induction t with
  | nil => rfl
  | cons a rest ih =>
      by_cases hp : p a = true
      · by_cases hq : q a = true
        · rw [List.filter_cons, if_pos hp, List.filter_cons, if_pos hq,
            List.filter_cons, if_pos hq, ih]
        · rw [List.filter_cons, if_pos hp, List.filter_cons, if_neg hq,
            List.filter_cons, if_neg hq, ih]
      · have hq : ¬ q a = true := fun hqa => hp (h a hqa)
        rw [List.filter_cons, if_neg hp, List.filter_cons, if_neg hq, ih]

lemma groupSales_filter_ne (t : List SalesRow) (f : SalesRow → String) (k k' : String)
    (hne : k' ≠ k) :
    groupSales (t.filter (fun r => !(f r == k))) f k' = groupSales t f k' := by
  unfold groupSales
  rw [filter_subset_comm]
  intro a ha
  have hfa : f a = k' := by simpa using ha
  rw [hfa]
  simp [hne]

lemma groups_sum (f : SalesRow → String) (ks : List String) (t : List SalesRow)
    (hnd : ks.Nodup) (hcov : ∀ r ∈ t, f r ∈ ks) :
    (ks.map (fun k => (groupSales t f k).sum)).sum = totalOf t := by
  induction ks generalizing t with
  | nil =>
      have ht : t = [] := by
        cases t with
        | nil => rfl
        | cons r rest => exact absurd (hcov r (List.mem_cons_self r rest)) (List.not_mem_nil _)
      subst ht
      simp [totalOf]
  | cons k ks' ih =>
      have hsplit := sum_map_filter_split (fun r => f r == k) (fun r => r.sales) t
      have hnd' : ks'.Nodup := (List.nodup_cons.mp hnd).2
      have hkn : k ∉ ks' := (List.nodup_cons.mp hnd).1
      have hcov' : ∀ r ∈ t.filter (fun r => !(f r == k)), f r ∈ ks' := by
        intro r hr
        have hrt : r ∈ t := (List.mem_filter.mp hr).1
        have hrne : f r ≠ k := by
          have := (List.mem_filter.mp hr).2
          simpa using this
        cases List.mem_cons.mp (hcov r hrt) with
        | inl h => exact absurd h hrne
        | inr h => exact h
      have hrw : (ks'.map (fun k' => (groupSales t f k').sum)).sum =
          (ks'.map (fun k' => (groupSales (t.filter (fun r => !(f r == k))) f k').sum)).sum := by
        have : ∀ k' ∈ ks', (groupSales t f k').sum =
            (groupSales (t.filter (fun r => !(f r == k))) f k').sum := by
          intro k' hk'
          rw [groupSales_filter_ne t f k k' (fun h => hkn (h ▸ hk'))]
        rw [List.map_congr_left]
        intro a ha
        exact this a ha
      simp only [List.map_cons, List.sum_cons]
      rw [hrw, ih (t.filter (fun r => !(f r == k))) hnd' hcov']
      simp only [groupSales, totalOf] at hsplit ⊢
      linarith [hsplit]

lemma sum_pointwise_bound (F G : String → ℚ) (c : ℚ) (ks : List String)
    (h : ∀ k ∈ ks, |F k - G k| ≤ c) :
    |(ks.map F).sum - (ks.map G).sum| ≤ ks.length * c := by
  induction ks with
  | nil => simp
  | cons k ks' ih =>
      simp only [List.map_cons, List.sum_cons, List.length_cons]
      have h1 := h k (List.mem_cons_self k ks')
      have h2 := ih (fun a ha => h a (List.mem_cons_of_mem k ha))
      have he : F k + (ks'.map F).sum - (G k + (ks'.map G).sum) =
          (F k - G k) + ((ks'.map F).sum - (ks'.map G).sum) := by ring
      rw [he]
      have htri := abs_add (F k - G k) ((ks'.map F).sum - (ks'.map G).sum)
      have hc : ((ks'.length + 1 : ℕ) : ℚ) * c = ks'.length * c + c := by
        push_cast
        ring
      rw [hc]
      linarith

lemma sum_map_mul_const (g : String → ℚ) (c : ℚ) (ks : List String) :
    (ks.map (fun k => g k * c)).sum = (ks.map g).sum * c := by
  induction ks with
  | nil => simp
  | cons k ks' ih =>
      simp only [List.map_cons, List.sum_cons, ih]
      ring

lemma total_sum_bound (t : List SalesRow) (f : SalesRow → String) (ks : List String)
    (hnd : ks.Nodup) (hcov : ∀ r ∈ t, f r ∈ ks) :
    |((ks.map (fun k => round2 (groupSales t f k).sum)).sum) - totalOf t| ≤
      ks.length * (1/200) := by
  have hpart := groups_sum f ks t hnd hcov
  rw [← hpart]
  exact sum_pointwise_bound (fun k => round2 (groupSales t f k).sum)
    (fun k => (groupSales t f k).sum) (1/200) ks
    (fun k _ => abs_round2_sub_le (groupSales t f k).sum)

lemma share_sum_bound (t : List SalesRow) (f : SalesRow → String) (ks : List String)
    (hnd : ks.Nodup) (hcov : ∀ r ∈ t, f r ∈ ks) (hS : totalOf t ≠ 0) :
    |((ks.map (fun k => round2 (round2 (groupSales t f k).sum / totalOf t * 100))).sum) - 100| ≤
      ks.length * (1/200 + 1/(2 * |totalOf t|)) := by
  have hSpos : 0 < |totalOf t| := abs_pos.mpr hS
  have hx : (ks.map (fun k => (groupSales t f k).sum / totalOf t * 100)).sum = 100 := by
    have he : (fun k => (groupSales t f k).sum / totalOf t * 100) =
        (fun k => (groupSales t f k).sum * (100 / totalOf t)) := by
      funext k
      ring
    rw [he, sum_map_mul_const, groups_sum f ks t hnd hcov]
    field_simp
  have hpw : ∀ k ∈ ks,
      |round2 (round2 (groupSales t f k).sum / totalOf t * 100) -
        (groupSales t f k).sum / totalOf t * 100| ≤ 1/200 + 1/(2 * |totalOf t|) := by
    intro k _
    set g := (groupSales t f k).sum with hg
    have h1 : |round2 (round2 g / totalOf t * 100) - round2 g / totalOf t * 100| ≤ 1/200 :=
      abs_round2_sub_le _
    have h2 : |round2 g / totalOf t * 100 - g / totalOf t * 100| ≤ 1/(2 * |totalOf t|) := by
      have he : round2 g / totalOf t * 100 - g / totalOf t * 100 =
          (round2 g - g) * (100 / totalOf t) := by ring
      rw [he, abs_mul, abs_div, abs_of_pos (show (0:ℚ) < 100 by norm_num)]
      have h3 : |round2 g - g| ≤ 1/200 := abs_round2_sub_le g
      have h4 : |round2 g - g| * (100 / |totalOf t|) ≤ (1/200) * (100 / |totalOf t|) := by
        apply mul_le_mul_of_nonneg_right h3
        positivity
      have h5 : (1/200 : ℚ) * (100 / |totalOf t|) = 1/(2 * |totalOf t|) := by
        field_simp
        ring
      linarith
    calc |round2 (round2 g / totalOf t * 100) - g / totalOf t * 100| ≤
        |round2 (round2 g / totalOf t * 100) - round2 g / totalOf t * 100| +
          |round2 g / totalOf t * 100 - g / totalOf t * 100| := abs_sub_le _ _ _
      _ ≤ 1/200 + 1/(2 * |totalOf t|) := by linarith
  have := sum_pointwise_bound
    (fun k => round2 (round2 (groupSales t f k).sum / totalOf t * 100))
    (fun k => (groupSales t f k).sum / totalOf t * 100)
    (1/200 + 1/(2 * |totalOf t|)) ks hpw
  rw [hx] at this
  exact this

lemma productTotalSum_eq (t : List SalesRow) : productTotalSum t =
    ((productKeys t).map (fun k => round2 (groupSales t (fun r => r.product) k).sum)).sum := by
  simp only [productTotalSum, create_product_summary, List.map_map]
  exact congrArg List.sum (List.map_congr_left (fun a ha => rfl))

lemma regionTotalSum_eq (t : List SalesRow) : regionTotalSum t =
    ((regionKeys t).map (fun k => round2 (groupSales t (fun r => r.region) k).sum)).sum := by
  simp only [regionTotalSum, create_region_summary, List.map_map]
  exact congrArg List.sum (List.map_congr_left (fun a ha => rfl))

lemma productShareSum_eq (t : List SalesRow) : productShareSum t =
    ((productKeys t).map (fun k =>
      round2 (round2 (groupSales t (fun r => r.product) k).sum / totalOf t * 100))).sum := by
  simp only [productShareSum, create_product_summary, List.map_map]
  exact congrArg List.sum (List.map_congr_left (fun a ha => rfl))

lemma regionShareSum_eq (t : List SalesRow) : regionShareSum t =
    ((regionKeys t).map (fun k =>
      round2 (round2 (groupSales t (fun r => r.region) k).sum / totalOf t * 100))).sum := by
  simp only [regionShareSum, create_region_summary, List.map_map]
  exact congrArg List.sum (List.map_congr_left (fun a ha => rfl))

/-- C8 amended: for a table with non-zero total, the per-group rounding of
sums (and of shares computed from the rounded sums) bounds the discrepancies
by half a rounding unit per group: the product/region `totalSales` columns
sum to within `n/200` of `totalSales`, and the share columns sum to within
`n * (1/200 + 1/(2*|totalSales|))` of 100, where `n` is the group count.
The fixed tolerances 0.01 and 0.1 claimed by the spec hold only for small
group counts / large enough totals. -/
theorem c8_amended_rounding_error_bounds (t : List SalesRow) (hS : totalOf t ≠ 0) :
    |productTotalSum t - totalOf t| ≤ (productKeys t).length * (1/200) ∧
    |regionTotalSum t - totalOf t| ≤ (regionKeys t).length * (1/200) ∧
    |productShareSum t - 100| ≤ (productKeys t).length * (1/200 + 1/(2 * |totalOf t|)) ∧
    |regionShareSum t - 100| ≤ (regionKeys t).length * (1/200 + 1/(2 * |totalOf t|)) := by
  have hndP : (productKeys t).Nodup := nodup_sortKeys (List.nodup_dedup _)
  have hndR : (regionKeys t).Nodup := nodup_sortKeys (List.nodup_dedup _)
  have hcovP : ∀ r ∈ t, r.product ∈ productKeys t := fun r hr => mem_productKeys hr
  have hcovR : ∀ r ∈ t, r.region ∈ regionKeys t := fun r hr => mem_regionKeys hr
  refine ⟨?_, ?_, ?_, ?_⟩
  · rw [productTotalSum_eq]
    exact total_sum_bound t (fun r => r.product) (productKeys t) hndP hcovP
  · rw [regionTotalSum_eq]
    exact total_sum_bound t (fun r => r.region) (regionKeys t) hndR hcovR
  · rw [productShareSum_eq]
    exact share_sum_bound t (fun r => r.product) (productKeys t) hndP hcovP hS
  · rw [regionShareSum_eq]
    exact share_sum_bound t (fun r => r.region) (regionKeys t) hndR hcovR hS

/-- C8 amended, witness: the bounds instantiated at a concrete one-row
table. -/
theorem c8_amended_rounding_error_bounds_witness : totalOf w8Table ≠ 0 ∧
    (|productTotalSum w8Table - totalOf w8Table| ≤ (productKeys w8Table).length * (1/200) ∧
     |regionTotalSum w8Table - totalOf w8Table| ≤ (regionKeys w8Table).length * (1/200) ∧
     |productShareSum w8Table - 100| ≤
       (productKeys w8Table).length * (1/200 + 1/(2 * |totalOf w8Table|)) ∧
     |regionShareSum w8Table - 100| ≤
       (regionKeys w8Table).length * (1/200 + 1/(2 * |totalOf w8Table|))) :=
  ⟨by simp [totalOf, w8Table], c8_amended_rounding_error_bounds w8Table (by simp [totalOf, w8Table])⟩

/-! Lemmas for the freeform round-trip (C5). -/

lemma dropWhile_of_noLead {l : List Char} (h : noLeadSpace l = true) :
    l.dropWhile pyIsSpace = l := by
  cases l with
  | nil => rfl
  | cons c t =>
      have hc : pyIsSpace c = false := by simpa [noLeadSpace] using h
      simp [List.dropWhile_cons, hc]

lemma strip_of_nice {l : List Char} (h : NiceText l) : pyStrip l = l := by
  unfold pyStrip
  rw [dropWhile_of_noLead h.1, dropWhile_of_noLead h.2, List.reverse_reverse]

lemma noLead_append {l : List Char} (m : List Char) (hl : noLeadSpace l = true)
    (hne : l ≠ []) : noLeadSpace (l ++ m) = true := by
  cases l with
  | nil => exact absurd rfl hne
  | cons c t => simpa [noLeadSpace] using hl

lemma reverse_ne_nil {v : List Char} (hne : v ≠ []) : v.reverse ≠ [] := by
  intro h
  exact hne (by simpa using congrArg List.reverse h)

lemma nice_append_space_value {p : List Char} (hp : noLeadSpace p = true) (hpne : p ≠ [])
    {v : List Char} (hv : NiceText v) (hvne : v ≠ []) : NiceText (p ++ ' ' :: v) := by
  constructor
  · exact noLead_append _ hp hpne
  · have hr : (p ++ ' ' :: v).reverse = v.reverse ++ (' ' :: p.reverse) := by
      simp
    rw [hr]
    exact noLead_append _ hv.2 (reverse_ne_nil hvne)

lemma strip_space_cons {v : List Char} (hv : NiceText v) : pyStrip (' ' :: v) = v := by
  have h1 : (' ' :: v).dropWhile pyIsSpace = v.dropWhile pyIsSpace := rfl
  unfold pyStrip
  rw [h1, dropWhile_of_noLead hv.1, dropWhile_of_noLead hv.2, List.reverse_reverse]

lemma strip_append_space {x : List Char} (hx : NiceText x) (hne : x ≠ []) :
    pyStrip (x ++ [' ']) = x := by
  unfold pyStrip
  rw [dropWhile_of_noLead (noLead_append _ hx.1 hne)]
  have hr : (x ++ [' ']).reverse = ' ' :: x.reverse := by simp
  rw [hr]
  have h2 : (' ' :: x.reverse).dropWhile pyIsSpace = x.reverse.dropWhile pyIsSpace := rfl
  rw [h2, dropWhile_of_noLead hx.2, List.reverse_reverse]

lemma nice_spaceJoin {ls : List (List Char)} (h : ∀ l ∈ ls, NiceText l ∧ l ≠ [])
    (hne : ls ≠ []) : NiceText (spaceJoin ls) ∧ spaceJoin ls ≠ [] := by
  induction ls with
  | nil => exact absurd rfl hne
  | cons l ls' ih =>
      cases ls' with
      | nil =>
          have := h l (List.mem_cons_self l [])
          exact ⟨this.1, this.2⟩
      | cons l2 ls'' =>
          have hl := h l (List.mem_cons_self l (l2 :: ls''))
          have hrest := ih (fun a ha => h a (List.mem_cons_of_mem l ha)) (by simp)
          have hsj : spaceJoin (l :: l2 :: ls'') = l ++ ' ' :: spaceJoin (l2 :: ls'') := rfl
          rw [hsj]
          constructor
          · exact nice_append_space_value hl.1.1 hl.2 hrest.1 hrest.2
          · cases hll : l with
            | nil => exact absurd hll hl.2
            | cons c t => simp

lemma joinSp_eq_spaceJoin {ls : List (List Char)} (hne : ls ≠ []) :
    joinSp ls = spaceJoin ls ++ [' '] := by
  induction ls with
  | nil => exact absurd rfl hne
  | cons l ls' ih =>
      cases ls' with
      | nil => simp [joinSp, spaceJoin]
      | cons l2 ls'' =>
          have h1 : joinSp (l :: l2 :: ls'') = l ++ [' '] ++ joinSp (l2 :: ls'') := rfl
          have h2 : spaceJoin (l :: l2 :: ls'') = l ++ ' ' :: spaceJoin (l2 :: ls'') := rfl
          rw [h1, h2, ih (by simp)]
          simp

lemma strip_joinSp {ls : List (List Char)} (h : ∀ l ∈ ls, NiceText l ∧ l ≠ []) :
    pyStrip (joinSp ls) = spaceJoin ls := by
  cases hls : ls with
  | nil => rfl
  | cons l ls' =>
      rw [← hls, joinSp_eq_spaceJoin (by rw [hls]; simp)]
      have hsj := nice_spaceJoin h (by rw [hls]; simp)
      exact strip_append_space hsj.1 hsj.2

lemma parseFold_append_ok {s s' : PState} {xs : List (List Char)}
    (h : parseFold s xs = .ok s') (ys : List (List Char)) :
    parseFold s (xs ++ ys) = parseFold s' ys := by
  induction xs generalizing s with
  | nil =>
      simp only [parseFold] at h
      cases h
      rfl
  | cons x xs' ih =>
      simp only [parseFold] at h ⊢
      cases hx : parseStep s x with
      | error e => rw [hx] at h; cases h
      | ok s1 => rw [hx] at h; exact ih h

lemma step_hdrSummary (s : PState) :
    parseStep s hdrSummary = .ok { s with current_section := some .summary } := rfl

lemma step_hdrFindings (s : PState) :
    parseStep s hdrFindings = .ok { s with current_section := some .findings } := rfl

lemma step_hdrRecs (s : PState) :
    parseStep s hdrRecs = .ok { s with current_section := some .recommendations } := rfl

lemma step_hdrRisk (s : PState) :
    parseStep s hdrRisk = .ok { s with current_section := some .risk } := rfl

lemma step_hdrSteps (s : PState) :
    parseStep s hdrSteps = .ok { s with current_section := some .steps } := rfl

lemma step_summary_line (s : PState) {l : List Char} (hw : PlainLineWF l)
    (hs : s.current_section = some .summary) :
    parseStep s l = .ok { s with executive_summary := s.executive_summary ++ l ++ [' '] } := by
  obtain ⟨hn, hne, hh⟩ := hw
  simp only [parseStep, strip_of_nice hn, dispatchLine, if_neg hne, hh, hs]

lemma step_risk_line (s : PState) {l : List Char} (hw : PlainLineWF l)
    (hs : s.current_section = some .risk) :
    parseStep s l = .ok { s with risk_assessment := s.risk_assessment ++ l ++ [' '] } := by
  obtain ⟨hn, hne, hh⟩ := hw
  simp only [parseStep, strip_of_nice hn, dispatchLine, if_neg hne, hh, hs]

lemma parseFold_summary (s : PState) (ls : List (List Char))
    (hw : ∀ l ∈ ls, PlainLineWF l) (hs : s.current_section = some .summary) :
    parseFold s ls = .ok { s with executive_summary := s.executive_summary ++ joinSp ls } := by
  induction ls generalizing s with
  | nil => simp [parseFold, joinSp]
  | cons l ls' ih =>
      have h1 := step_summary_line s (hw l (List.mem_cons_self l ls')) hs
      simp only [parseFold, h1]
      rw [ih { s with executive_summary := s.executive_summary ++ l ++ [' '] }
        (fun a ha => hw a (List.mem_cons_of_mem l ha)) hs]
      simp [joinSp, List.append_assoc]

lemma parseFold_risk (s : PState) (ls : List (List Char))
    (hw : ∀ l ∈ ls, PlainLineWF l) (hs : s.current_section = some .risk) :
    parseFold s ls = .ok { s with risk_assessment := s.risk_assessment ++ joinSp ls } := by
  induction ls generalizing s with
  | nil => simp [parseFold, joinSp]
  | cons l ls' ih =>
      have h1 := step_risk_line s (hw l (List.mem_cons_self l ls')) hs
      simp only [parseFold, h1]
      rw [ih { s with risk_assessment := s.risk_assessment ++ l ++ [' '] }
        (fun a ha => hw a (List.mem_cons_of_mem l ha)) hs]
      simp [joinSp, List.append_assoc]

lemma nice_bullet_line {t : List Char} (ht : NiceText t) (hne : t ≠ []) :
    NiceText ('•' :: ' ' :: t) := by
  constructor
  · rfl
  · have hr : ('•' :: ' ' :: t).reverse = t.reverse ++ [' ', '•'] := by simp
    rw [hr]
    exact noLead_append _ ht.2 (reverse_ne_nil hne)

lemma step_bullet (s : PState) {t : List Char} (ht : NiceText t) :
    dispatchLine s (pyStrip ('•' :: ' ' :: t)) =
      dispatchLine s ('•' :: (if t = [] then [] else ' ' :: t)) ∧
      pyStrip (('•' :: (if t = [] then [] else ' ' :: t)).drop 1) = t := by
  by_cases h0 : t = []
  · subst h0
    constructor
    · have : pyStrip ['•', ' '] = ['•'] := by decide
      rw [this]
      rfl
    · rfl
  · rw [if_neg h0]
    exact ⟨by rw [strip_of_nice (nice_bullet_line ht h0)], by
      rw [show ('•' :: ' ' :: t).drop 1 = ' ' :: t from rfl, strip_space_cons ht]⟩

lemma step_findings_bullet (s : PState) {t : List Char} (ht : NiceText t)
    (hs : s.current_section = some .findings) :
    parseStep s ('•' :: ' ' :: t) = .ok { s with key_findings := s.key_findings ++ [t] } := by
  obtain ⟨h1, h2⟩ := step_bullet s ht
  rw [parseStep, h1]
  have hnn : ('•' :: (if t = [] then [] else ' ' :: t)) ≠ [] := by simp
  have hsoh : sectionOfHeader ('•' :: (if t = [] then [] else ' ' :: t)) = none := rfl
  have hbp : bulletP.isPrefixOf ('•' :: (if t = [] then [] else ' ' :: t)) = true := by simp [bulletP, List.isPrefixOf]
  simp only [dispatchLine, if_neg hnn, hsoh, hs, hbp, if_true, h2]

lemma step_steps_bullet (s : PState) {t : List Char} (ht : NiceText t)
    (hs : s.current_section = some .steps) :
    parseStep s ('•' :: ' ' :: t) = .ok { s with next_steps := s.next_steps ++ [t] } := by
  obtain ⟨h1, h2⟩ := step_bullet s ht
  rw [parseStep, h1]
  have hnn : ('•' :: (if t = [] then [] else ' ' :: t)) ≠ [] := by simp
  have hsoh : sectionOfHeader ('•' :: (if t = [] then [] else ' ' :: t)) = none := rfl
  have hbp : bulletP.isPrefixOf ('•' :: (if t = [] then [] else ' ' :: t)) = true := by simp [bulletP, List.isPrefixOf]
  simp only [dispatchLine, if_neg hnn, hsoh, hs, hbp, if_true, h2]

lemma step_junk (s : PState) {l : List Char} (hw : JunkLineWF l)
    (hs : s.current_section = some .findings ∨ s.current_section = some .steps) :
    parseStep s l = .ok s := by
  obtain ⟨⟨hn, hne, hh⟩, hb⟩ := hw
  cases hs with
  | inl h =>
      simp only [parseStep, strip_of_nice hn, dispatchLine, if_neg hne, hh, h, hb,
        Bool.false_eq_true, if_false, ite_false]
  | inr h =>
      simp only [parseStep, strip_of_nice hn, dispatchLine, if_neg hne, hh, h, hb,
        Bool.false_eq_true, if_false, ite_false]

lemma parseFold_findings (s : PState) (es : List BulletLine)
    (hw : ∀ e ∈ es, EntryWF e) (hs : s.current_section = some .findings) :
    parseFold s (es.map renderEntry) =
      .ok { s with key_findings := s.key_findings ++ bulletTexts es } := by
  induction es generalizing s with
  | nil => simp [parseFold, bulletTexts]
  | cons e es' ih =>
      cases e with
      | bullet t =>
          have ht : NiceText t := hw (.bullet t) (List.mem_cons_self _ _)
          have h1 := step_findings_bullet s ht hs
          simp only [List.map_cons, renderEntry, parseFold, h1]
          rw [ih { s with key_findings := s.key_findings ++ [t] }
            (fun a ha => hw a (List.mem_cons_of_mem _ ha)) hs]
          simp [bulletTexts, List.append_assoc]
      | plain l =>
          have hj : JunkLineWF l := hw (.plain l) (List.mem_cons_self _ _)
          have h1 := step_junk s hj (Or.inl hs)
          simp only [List.map_cons, renderEntry, parseFold, h1]
          rw [ih s (fun a ha => hw a (List.mem_cons_of_mem _ ha)) hs]
          simp [bulletTexts]

lemma parseFold_steps (s : PState) (es : List BulletLine)
    (hw : ∀ e ∈ es, EntryWF e) (hs : s.current_section = some .steps) :
    parseFold s (es.map renderEntry) =
      .ok { s with next_steps := s.next_steps ++ bulletTexts es } := by
  induction es generalizing s with
  | nil => simp [parseFold, bulletTexts]
  | cons e es' ih =>
      cases e with
      | bullet t =>
          have ht : NiceText t := hw (.bullet t) (List.mem_cons_self _ _)
          have h1 := step_steps_bullet s ht hs
          simp only [List.map_cons, renderEntry, parseFold, h1]
          rw [ih { s with next_steps := s.next_steps ++ [t] }
            (fun a ha => hw a (List.mem_cons_of_mem _ ha)) hs]
          simp [bulletTexts, List.append_assoc]
      | plain l =>
          have hj : JunkLineWF l := hw (.plain l) (List.mem_cons_self _ _)
          have h1 := step_junk s hj (Or.inr hs)
          simp only [List.map_cons, renderEntry, parseFold, h1]
          rw [ih s (fun a ha => hw a (List.mem_cons_of_mem _ ha)) hs]
          simp [bulletTexts]

lemma append_ne_nil {l : List Char} (m : List Char) (h : l ≠ []) : l ++ m ≠ [] := by
  cases l with
  | nil => exact absurd rfl h
  | cons c t => simp

lemma isPrefixOf_append_self (l m : List Char) : l.isPrefixOf (l ++ m) = true := by
  induction l with
  | nil => cases m <;> rfl
  | cons c t ih => simp [List.isPrefixOf, ih]

lemma flush_emptyDraft (recs : List ExecutiveRecommendation) :
    flushIfComplete recs emptyDraft = .ok (recs, emptyDraft) := rfl

lemma complete_fullDraft {r : SpecRecommendation} (hr : RecWF r) :
    is_recommendation_complete (fullDraft r) = true := by
  obtain ⟨hdne, hdw, hc, hp, ht, he⟩ := hr
  have hj := nice_spaceJoin (fun l hl => ⟨(hdw l hl).1.1, (hdw l hl).1.2.1⟩) hdne
  simp [is_recommendation_complete, fullDraft, strip_of_nice hj.1, strip_of_nice hp.1,
    strip_of_nice ht.1, strip_of_nice he.1, hj.2, hp.2, ht.2, he.2]

lemma flush_fullDraft (recs : List ExecutiveRecommendation) {r : SpecRecommendation}
    (hr : RecWF r) :
    flushIfComplete recs (fullDraft r) = .ok (recs ++ [specToRec r], emptyDraft) := by
  have h1 : (fullDraft r).isEmpty = false := rfl
  unfold flushIfComplete
  rw [h1, complete_fullDraft hr]
  rfl

lemma draftFlushList_empty : draftFlushList emptyDraft = [] := rfl

lemma draftFlushList_full {r : SpecRecommendation} (hr : RecWF r) :
    draftFlushList (fullDraft r) = [specToRec r] := by
  have h1 : (fullDraft r).isEmpty = false := rfl
  unfold draftFlushList
  rw [h1, complete_fullDraft hr]
  rfl

lemma flush_of_flushInput (recs : List ExecutiveRecommendation) {d : Draft}
    (hd : d = emptyDraft ∨ ∃ r0, RecWF r0 ∧ d = fullDraft r0) :
    flushIfComplete recs d = .ok (recs ++ draftFlushList d, emptyDraft) := by
  cases hd with
  | inl h =>
      subst h
      rw [flush_emptyDraft, draftFlushList_empty, List.append_nil]
  | inr h =>
      obtain ⟨r0, hr0, h⟩ := h
      subst h
      rw [flush_fullDraft recs hr0, draftFlushList_full hr0]

lemma nice_field_line (p : List Char) (hp : noLeadSpace p = true) (hpne : p ≠ [])
    {v : List Char} (hv : NiceText v) (hvne : v ≠ []) : NiceText (p ++ ' ' :: v) :=
  nice_append_space_value hp hpne hv hvne

lemma step_cat_line (s : PState) {v : List Char} (hv : NiceText v) (hvne : v ≠ [])
    (hs : s.current_section = some .recommendations)
    {R : List ExecutiveRecommendation} {D : Draft}
    (hf : flushIfComplete s.strategic_recommendations s.current_recommendation = .ok (R, D)) :
    parseStep s (catP ++ ' ' :: v) =
      .ok { s with strategic_recommendations := R
                   current_recommendation := { D with category := some v } } := by
  have hnice : NiceText (catP ++ ' ' :: v) :=
    nice_field_line catP (by decide) (by decide) hv hvne
  have hne2 : catP ++ ' ' :: v ≠ [] := append_ne_nil _ (by decide)
  have hsoh : sectionOfHeader (catP ++ ' ' :: v) = none := rfl
  have hpre : catP.isPrefixOf (catP ++ ' ' :: v) = true := isPrefixOf_append_self _ _
  have hval : pyStrip (afterFirstColon (catP ++ ' ' :: v)) = v := by
    rw [show afterFirstColon (catP ++ ' ' :: v) = ' ' :: v from rfl, strip_space_cons hv]
  simp only [parseStep, strip_of_nice hnice, dispatchLine, if_neg hne2, hsoh, hs, recStep,
    hpre, if_true, hf, hval]

lemma step_prio_line (s : PState) {v : List Char} (hv : NiceText v) (hvne : v ≠ [])
    (hs : s.current_section = some .recommendations) :
    parseStep s (prioP ++ ' ' :: v) =
      .ok { s with current_recommendation :=
                     { s.current_recommendation with priority := some v } } := by
  have hnice : NiceText (prioP ++ ' ' :: v) :=
    nice_field_line prioP (by decide) (by decide) hv hvne
  have hne2 : prioP ++ ' ' :: v ≠ [] := append_ne_nil _ (by decide)
  have hsoh : sectionOfHeader (prioP ++ ' ' :: v) = none := rfl
  have hc : catP.isPrefixOf (prioP ++ ' ' :: v) = false := rfl
  have hpre : prioP.isPrefixOf (prioP ++ ' ' :: v) = true := isPrefixOf_append_self _ _
  have hval : pyStrip (afterFirstColon (prioP ++ ' ' :: v)) = v := by
    rw [show afterFirstColon (prioP ++ ' ' :: v) = ' ' :: v from rfl, strip_space_cons hv]
  simp only [parseStep, strip_of_nice hnice, dispatchLine, if_neg hne2, hsoh, hs, recStep,
    hc, hpre, if_true, Bool.false_eq_true, if_false, ite_false, hval]

lemma step_tl_line (s : PState) {v : List Char} (hv : NiceText v) (hvne : v ≠ [])
    (hs : s.current_section = some .recommendations) :
    parseStep s (tlP ++ ' ' :: v) =
      .ok { s with current_recommendation :=
                     { s.current_recommendation with timeline := some v } } := by
  have hnice : NiceText (tlP ++ ' ' :: v) :=
    nice_field_line tlP (by decide) (by decide) hv hvne
  have hne2 : tlP ++ ' ' :: v ≠ [] := append_ne_nil _ (by decide)
  have hsoh : sectionOfHeader (tlP ++ ' ' :: v) = none := rfl
  have hc : catP.isPrefixOf (tlP ++ ' ' :: v) = false := rfl
  have hp : prioP.isPrefixOf (tlP ++ ' ' :: v) = false := rfl
  have hpre : tlP.isPrefixOf (tlP ++ ' ' :: v) = true := isPrefixOf_append_self _ _
  have hval : pyStrip (afterFirstColon (tlP ++ ' ' :: v)) = v := by
    rw [show afterFirstColon (tlP ++ ' ' :: v) = ' ' :: v from rfl, strip_space_cons hv]
  simp only [parseStep, strip_of_nice hnice, dispatchLine, if_neg hne2, hsoh, hs, recStep,
    hc, hp, hpre, if_true, Bool.false_eq_true, if_false, ite_false, hval]

lemma step_ei_line (s : PState) {v : List Char} (hv : NiceText v) (hvne : v ≠ [])
    (hs : s.current_section = some .recommendations) :
    parseStep s (eiP ++ ' ' :: v) =
      .ok { s with current_recommendation :=
                     { s.current_recommendation with expected_impact := some v } } := by
  have hnice : NiceText (eiP ++ ' ' :: v) :=
    nice_field_line eiP (by decide) (by decide) hv hvne
  have hne2 : eiP ++ ' ' :: v ≠ [] := append_ne_nil _ (by decide)
  have hsoh : sectionOfHeader (eiP ++ ' ' :: v) = none := rfl
  have hc : catP.isPrefixOf (eiP ++ ' ' :: v) = false := rfl
  have hp : prioP.isPrefixOf (eiP ++ ' ' :: v) = false := rfl
  have htl : tlP.isPrefixOf (eiP ++ ' ' :: v) = false := rfl
  have hpre : eiP.isPrefixOf (eiP ++ ' ' :: v) = true := isPrefixOf_append_self _ _
  have hval : pyStrip (afterFirstColon (eiP ++ ' ' :: v)) = v := by
    rw [show afterFirstColon (eiP ++ ' ' :: v) = ' ' :: v from rfl, strip_space_cons hv]
  simp only [parseStep, strip_of_nice hnice, dispatchLine, if_neg hne2, hsoh, hs, recStep,
    hc, hp, htl, hpre, if_true, Bool.false_eq_true, if_false, ite_false, hval]

lemma nice_bracket_line (label : List Char) : NiceText (brP ++ label ++ [']']) := by
  constructor
  · exact noLead_append _ (noLead_append _ (by decide) (by decide)) (append_ne_nil _ (by decide))
  · have hr : (brP ++ label ++ [']']).reverse = ']' :: (brP ++ label).reverse := by simp
    rw [hr]
    rfl

lemma step_bracket_line (s : PState) (label : List Char)
    (hs : s.current_section = some .recommendations)
    {R : List ExecutiveRecommendation} {D : Draft}
    (hf : flushIfComplete s.strategic_recommendations s.current_recommendation = .ok (R, D)) :
    parseStep s (brP ++ label ++ [']']) =
      .ok { s with strategic_recommendations := R
                   current_recommendation := emptyDraft } := by
  have hnice := nice_bracket_line label
  have hne2 : brP ++ label ++ [']'] ≠ [] :=
    append_ne_nil _ (append_ne_nil _ (by decide))
  have hsoh : sectionOfHeader (brP ++ label ++ [']']) = none := rfl
  have hc : catP.isPrefixOf (brP ++ label ++ [']']) = false := rfl
  have hp : prioP.isPrefixOf (brP ++ label ++ [']']) = false := rfl
  have htl : tlP.isPrefixOf (brP ++ label ++ [']']) = false := rfl
  have hei : eiP.isPrefixOf (brP ++ label ++ [']']) = false := rfl
  have hbr : brP.isPrefixOf (brP ++ label ++ [']']) = true := by
    rw [List.append_assoc]
    exact isPrefixOf_append_self _ _
  have hsuf : closeBracketP.isSuffixOf (brP ++ label ++ [']']) = true := by
    simp [List.isSuffixOf, List.reverse_append, List.isPrefixOf]
  simp only [parseStep, strip_of_nice hnice, dispatchLine, if_neg hne2, hsoh, hs, recStep,
    hc, hp, htl, hei, hbr, hsuf, Bool.and_self, if_true, Bool.false_eq_true, if_false,
    ite_false, hf]

lemma step_desc_line (s : PState) {l : List Char} (hw : DescLineWF l)
    (hs : s.current_section = some .recommendations) :
    parseStep s l =
      .ok { s with current_recommendation :=
                     { s.current_recommendation with
                       recommendation :=
                         some (appendText s.current_recommendation.recommendation l) } } := by
  obtain ⟨⟨hn, hne, hh⟩, hc, hp, htl, hei, hbr⟩ := hw
  simp only [parseStep, strip_of_nice hn, dispatchLine, if_neg hne, hh, hs, recStep,
    hc, hp, htl, hei, hbr, Bool.false_eq_true, if_false, ite_false]

lemma parseFold_desc (s : PState) (ds : List (List Char))
    (hw : ∀ l ∈ ds, DescLineWF l) (hs : s.current_section = some .recommendations) :
    parseFold s ds =
      .ok { s with current_recommendation :=
                     { s.current_recommendation with
                       recommendation :=
                         textAppend s.current_recommendation.recommendation ds } } := by
  induction ds generalizing s with
  | nil => simp [parseFold, textAppend]
  | cons l ds' ih =>
      have h1 := step_desc_line s (hw l (List.mem_cons_self l ds')) hs
      simp only [parseFold, h1]
      rw [ih { s with current_recommendation :=
                        { s.current_recommendation with
                          recommendation :=
                            some (appendText s.current_recommendation.recommendation l) } }
        (fun a ha => hw a (List.mem_cons_of_mem l ha)) hs]
      simp [textAppend]

lemma textAppend_some (r : List Char) (ds : List (List Char)) (hne : ds ≠ []) :
    textAppend (some r) ds = some (r ++ ' ' :: spaceJoin ds) := by
  induction ds generalizing r with
  | nil => exact absurd rfl hne
  | cons l ds' ih =>
      cases ds' with
      | nil => rfl
      | cons l2 ds'' =>
          have h1 : textAppend (some r) (l :: l2 :: ds'') =
              textAppend (some (r ++ ' ' :: l)) (l2 :: ds'') := rfl
          rw [h1, ih _ (by simp)]
          have h2 : spaceJoin (l :: l2 :: ds'') = l ++ ' ' :: spaceJoin (l2 :: ds'') := rfl
          rw [h2]
          simp

lemma textAppend_none (ds : List (List Char)) (hne : ds ≠ []) :
    textAppend none ds = some (spaceJoin ds) := by
  cases ds with
  | nil => exact absurd rfl hne
  | cons l ds' =>
      cases ds' with
      | nil => rfl
      | cons l2 ds'' =>
          have h1 : textAppend none (l :: l2 :: ds'') = textAppend (some l) (l2 :: ds'') := rfl
          rw [h1, textAppend_some l (l2 :: ds'') (by simp)]
          rfl

lemma parseFold_renderRec (s : PState) {r : SpecRecommendation} (hr : RecWF r)
    (hs : s.current_section = some .recommendations)
    (hd : s.current_recommendation = emptyDraft ∨
          ∃ r0, RecWF r0 ∧ s.current_recommendation = fullDraft r0) :
    parseFold s (renderRec r) =
      .ok { s with strategic_recommendations :=
                     s.strategic_recommendations ++ draftFlushList s.current_recommendation
                   current_recommendation := fullDraft r } := by
  obtain ⟨hdne, hdw, hcat, hprio, htl, hei⟩ := hr
  have hflush := flush_of_flushInput s.strategic_recommendations hd
  have hbr := step_bracket_line s r.label hs hflush
  set s1 : PState :=
    { s with strategic_recommendations :=
               s.strategic_recommendations ++ draftFlushList s.current_recommendation
             current_recommendation := emptyDraft } with hs1
  have hfold1 : parseFold s (renderRec r) =
      parseFold s1 (r.description ++
        [catP ++ ' ' :: r.category, prioP ++ ' ' :: r.priority,
         tlP ++ ' ' :: r.timeline, eiP ++ ' ' :: r.expected_impact]) := by
    simp only [renderRec, parseFold, hbr]
    rfl
  rw [hfold1]
  have hdesc := parseFold_desc s1 r.description hdw (by rw [hs1]; exact hs)
  rw [parseFold_append_ok hdesc]
  set s2 : PState :=
    { s1 with current_recommendation :=
                { s1.current_recommendation with
                  recommendation := textAppend s1.current_recommendation.recommendation r.description } } with hs2
  -- category line: the draft is incomplete (priority is none), so no flush
  have hincomp : is_recommendation_complete s2.current_recommendation = false := by
    rw [hs2, hs1]
    simp [is_recommendation_complete, emptyDraft]
  have hflush2 : flushIfComplete s2.strategic_recommendations s2.current_recommendation =
      .ok (s2.strategic_recommendations, s2.current_recommendation) := by
    unfold flushIfComplete
    rw [hincomp]
    simp
  have hcatstep := step_cat_line s2 hcat.1 hcat.2 (by rw [hs2, hs1]; exact hs) hflush2
  have hfold2 : parseFold s2
      [catP ++ ' ' :: r.category, prioP ++ ' ' :: r.priority,
       tlP ++ ' ' :: r.timeline, eiP ++ ' ' :: r.expected_impact] =
      parseFold { s2 with current_recommendation :=
                            { s2.current_recommendation with category := some r.category } }
        [prioP ++ ' ' :: r.priority, tlP ++ ' ' :: r.timeline, eiP ++ ' ' :: r.expected_impact] := by
    simp only [parseFold, hcatstep]
  rw [hfold2]
  set s3 : PState :=
    { s2 with current_recommendation :=
                { s2.current_recommendation with category := some r.category } } with hs3
  have hpstep := step_prio_line s3 hprio.1 hprio.2 (by rw [hs3, hs2, hs1]; exact hs)
  have hfold3 : parseFold s3
      [prioP ++ ' ' :: r.priority, tlP ++ ' ' :: r.timeline, eiP ++ ' ' :: r.expected_impact] =
      parseFold { s3 with current_recommendation :=
                            { s3.current_recommendation with priority := some r.priority } }
        [tlP ++ ' ' :: r.timeline, eiP ++ ' ' :: r.expected_impact] := by
    simp only [parseFold, hpstep]
  rw [hfold3]
  set s4 : PState :=
    { s3 with current_recommendation :=
                { s3.current_recommendation with priority := some r.priority } } with hs4
  have htstep := step_tl_line s4 htl.1 htl.2 (by rw [hs4, hs3, hs2, hs1]; exact hs)
  have hfold4 : parseFold s4
      [tlP ++ ' ' :: r.timeline, eiP ++ ' ' :: r.expected_impact] =
      parseFold { s4 with current_recommendation :=
                            { s4.current_recommendation with timeline := some r.timeline } }
        [eiP ++ ' ' :: r.expected_impact] := by
    simp only [parseFold, htstep]
  rw [hfold4]
  set s5 : PState :=
    { s4 with current_recommendation :=
                { s4.current_recommendation with timeline := some r.timeline } } with hs5
  have hestep := step_ei_line s5 hei.1 hei.2 (by rw [hs5, hs4, hs3, hs2, hs1]; exact hs)
  have hfold5 : parseFold s5 [eiP ++ ' ' :: r.expected_impact] =
      .ok { s5 with current_recommendation :=
                      { s5.current_recommendation with
                        expected_impact := some r.expected_impact } } := by
    simp only [parseFold, hestep]
  rw [hfold5]
  simp only [hs5, hs4, hs3, hs2, hs1, Except.ok.injEq]
  simp [fullDraft, emptyDraft, textAppend_none r.description hdne]

lemma map_dropLast_getLast (rs : List SpecRecommendation) (h : rs ≠ []) :
    rs.dropLast.map specToRec ++ [specToRec (rs.getLast h)] = rs.map specToRec := by
  conv_rhs => rw [← List.dropLast_append_getLast h]
  rw [List.map_append]
  rfl

lemma parseFold_recs (s : PState) (r : SpecRecommendation) (rs : List SpecRecommendation)
    (hw : ∀ x ∈ r :: rs, RecWF x)
    (hs : s.current_section = some .recommendations)
    (hd : s.current_recommendation = emptyDraft ∨
          ∃ r0, RecWF r0 ∧ s.current_recommendation = fullDraft r0) :
    parseFold s (((r :: rs).map renderRec).flatten) =
      .ok { s with strategic_recommendations :=
                     s.strategic_recommendations ++ draftFlushList s.current_recommendation ++
                       ((r :: rs).dropLast.map specToRec)
                   current_recommendation := fullDraft ((r :: rs).getLast (by simp)) } := by
  induction rs generalizing s r with
  | nil =>
      have h1 := parseFold_renderRec s (hw r (List.mem_cons_self r [])) hs hd
      have hflat : (([r].map renderRec).flatten) = renderRec r ++ [] := by simp
      rw [hflat, parseFold_append_ok h1, parseFold]
      simp [List.dropLast, List.getLast]
  | cons r2 rs' ih =>
      have h1 := parseFold_renderRec s (hw r (List.mem_cons_self r (r2 :: rs'))) hs hd
      have hflat : (((r :: r2 :: rs').map renderRec).flatten) =
          renderRec r ++ ((r2 :: rs').map renderRec).flatten := by simp
      rw [hflat, parseFold_append_ok h1]
      rw [ih { s with strategic_recommendations :=
                        s.strategic_recommendations ++ draftFlushList s.current_recommendation
                      current_recommendation := fullDraft r }
        r2 (fun x hx => hw x (List.mem_cons_of_mem r hx)) hs
        (Or.inr ⟨r, hw r (List.mem_cons_self r (r2 :: rs')), rfl⟩)]
      have hfull : draftFlushList (fullDraft r) = [specToRec r] :=
        draftFlushList_full (hw r (List.mem_cons_self r (r2 :: rs')))
      simp only [Except.ok.injEq, hfull]
      have hdl : (r :: r2 :: rs').dropLast = r :: (r2 :: rs').dropLast := rfl
      have hgl : (r :: r2 :: rs').getLast (by simp) = (r2 :: rs').getLast (by simp) := by
        rw [List.getLast_cons]
      rw [hdl, hgl]
      simp [List.append_assoc]

/-- C5: for every text block conforming to the freeform grammar with N
well-formed recommendation entries, the parser returns exactly the N
records with matching field values (multi-line descriptions space-joined),
the summary and risk paragraphs space-joined, the bulleted findings/steps
captured with the marker stripped and trimmed, and non-bulleted lines in
those sections dropped. -/
theorem c5_roundtrip (b : SpecBlock) (h : BlockWF b) :
    parse_llm_response (renderBlock b) = .ok
      { executive_summary := spaceJoin b.summaryLines
        key_findings := bulletTexts b.findings
        strategic_recommendations := b.recs.map specToRec
        risk_assessment := spaceJoin b.riskLines
        next_steps := bulletTexts b.steps } := by
  obtain ⟨hws, hwf, hwr, hwrisk, hwsteps⟩ := h
  have hblock : renderBlock b = hdrSummary ::
      (b.summaryLines ++ (hdrFindings :: (b.findings.map renderEntry ++
        (hdrRecs :: ((b.recs.map renderRec).flatten ++
          (hdrRisk :: (b.riskLines ++ (hdrSteps :: b.steps.map renderEntry)))))))) := by
    simp [renderBlock, List.append_assoc]
  unfold parse_llm_response
  rw [hblock]
  rw [show ∀ ls, parseFold initPState (hdrSummary :: ls) = parseFold
    { initPState with current_section := some SectionTag.summary } ls from
    fun ls => by simp only [parseFold, step_hdrSummary]]
  rw [parseFold_append_ok (parseFold_summary _ b.summaryLines hws rfl)]
  rw [show ∀ (p : PState) ls, parseFold p (hdrFindings :: ls) = parseFold
    { p with current_section := some SectionTag.findings } ls from
    fun p ls => by simp only [parseFold, step_hdrFindings]]
  rw [parseFold_append_ok (parseFold_findings _ b.findings hwf rfl)]
  rw [show ∀ (p : PState) ls, parseFold p (hdrRecs :: ls) = parseFold
    { p with current_section := some SectionTag.recommendations } ls from
    fun p ls => by simp only [parseFold, step_hdrRecs]]
  cases hbr : b.recs with
  | nil =>
      rw [show (([] : List SpecRecommendation).map renderRec).flatten = [] from rfl,
        List.nil_append]
      rw [show ∀ (p : PState) ls, parseFold p (hdrRisk :: ls) = parseFold
        { p with current_section := some SectionTag.risk } ls from
        fun p ls => by simp only [parseFold, step_hdrRisk]]
      rw [parseFold_append_ok (parseFold_risk _ b.riskLines hwrisk rfl)]
      rw [show ∀ (p : PState) ls, parseFold p (hdrSteps :: ls) = parseFold
        { p with current_section := some SectionTag.steps } ls from
        fun p ls => by simp only [parseFold, step_hdrSteps]]
      rw [parseFold_steps _ b.steps hwsteps rfl]
      rw [show ∀ (p : PState), (match (Except.ok p : Except Unit PState) with
        | .error e => Except.error e
        | .ok s => finalizeParse s) = finalizeParse p from fun p => rfl]
      show finalizeParse
          { current_section := some SectionTag.steps
            executive_summary := joinSp b.summaryLines
            key_findings := bulletTexts b.findings
            strategic_recommendations := []
            current_recommendation := emptyDraft
            risk_assessment := joinSp b.riskLines
            next_steps := bulletTexts b.steps } =
        Except.ok
          { executive_summary := spaceJoin b.summaryLines
            key_findings := bulletTexts b.findings
            strategic_recommendations := []
            risk_assessment := spaceJoin b.riskLines
            next_steps := bulletTexts b.steps }
      unfold finalizeParse
      rw [flush_emptyDraft]
      simp only [Except.ok.injEq, ExecutiveSummaryR.mk.injEq, and_true, true_and]
      refine ⟨?_, ?_⟩
      · exact strip_joinSp (fun l hl => ⟨(hws l hl).1, (hws l hl).2.1⟩)
      · exact strip_joinSp (fun l hl => ⟨(hwrisk l hl).1, (hwrisk l hl).2.1⟩)
  | cons r rs =>
      rw [parseFold_append_ok (parseFold_recs _ r rs (hbr ▸ hwr) rfl (Or.inl rfl))]
      rw [show ∀ (p : PState) ls, parseFold p (hdrRisk :: ls) = parseFold
        { p with current_section := some SectionTag.risk } ls from
        fun p ls => by simp only [parseFold, step_hdrRisk]]
      rw [parseFold_append_ok (parseFold_risk _ b.riskLines hwrisk rfl)]
      rw [show ∀ (p : PState) ls, parseFold p (hdrSteps :: ls) = parseFold
        { p with current_section := some SectionTag.steps } ls from
        fun p ls => by simp only [parseFold, step_hdrSteps]]
      rw [parseFold_steps _ b.steps hwsteps rfl]
      rw [show ∀ (p : PState), (match (Except.ok p : Except Unit PState) with
        | .error e => Except.error e
        | .ok s => finalizeParse s) = finalizeParse p from fun p => rfl]
      have hlast : RecWF ((r :: rs).getLast (by simp)) :=
        (hbr ▸ hwr) _ (List.getLast_mem _)
      show finalizeParse
          { current_section := some SectionTag.steps
            executive_summary := joinSp b.summaryLines
            key_findings := bulletTexts b.findings
            strategic_recommendations := (r :: rs).dropLast.map specToRec
            current_recommendation := fullDraft ((r :: rs).getLast (by simp))
            risk_assessment := joinSp b.riskLines
            next_steps := bulletTexts b.steps } =
        Except.ok
          { executive_summary := spaceJoin b.summaryLines
            key_findings := bulletTexts b.findings
            strategic_recommendations := (r :: rs).map specToRec
            risk_assessment := spaceJoin b.riskLines
            next_steps := bulletTexts b.steps }
      unfold finalizeParse
      rw [flush_fullDraft _ hlast]
      simp only [Except.ok.injEq, ExecutiveSummaryR.mk.injEq, and_true, true_and]
      refine ⟨?_, ?_, ?_⟩
      · exact strip_joinSp (fun l hl => ⟨(hws l hl).1, (hws l hl).2.1⟩)
      · exact map_dropLast_getLast (r :: rs) (by simp)
      · exact strip_joinSp (fun l hl => ⟨(hwrisk l hl).1, (hwrisk l hl).2.1⟩)

/-- C5 witness: the round-trip at a concrete two-entry block. -/
theorem c5_roundtrip_witness : BlockWF c5Block ∧
    parse_llm_response (renderBlock c5Block) = .ok
      { executive_summary := spaceJoin c5Block.summaryLines
        key_findings := bulletTexts c5Block.findings
        strategic_recommendations := c5Block.recs.map specToRec
        risk_assessment := spaceJoin c5Block.riskLines
        next_steps := bulletTexts c5Block.steps } :=
  ⟨by decide, c5_roundtrip c5Block (by decide)⟩
